import Mathlib

/-! # The transforming store of norman (`store/transform/transform.go`)

A shallow embedding of the decorator `transform.Store` and of the claims made about it.

Conventions of the embedding.

* Go calls have effects, so every call of the inner store or of a transformer is a
  state-passing function over a world state `σ` that is left abstract.  That a function
  was *not* called is visible as the world being the one the previous call left behind,
  for every world type and every transformer (take a transformer that counts its calls).
* A Go value that may be `nil` is an `Option`: `none` is `nil`.
* A call through a `nil` func value is a run-time panic: `Outcome.panics`.
* The pointer arguments `apiContext` and `schema` are taken to be non-nil.
* `listTrace` only records timings and has no part in any result; it is left out.
* The goroutines of power mode are run by a step function under an explicit schedule; a
  property of power mode is a property of every schedule.  A transformer call is one step
  of such a run, and a schedule may cancel the request context at any moment.
-/

namespace types

/-- The values a resource field may hold (`interface{}`); the store never inspects them. -/
inductive Value where
  | null
  | bool (b : Bool)
  | num (n : Int)
  | str (s : String)
  deriving DecidableEq, Repr

/-- A non-nil `map[string]interface{}`, as its key/value entries. -/
abbrev Item := List (String × Value)

/-- A `map[string]interface{}` value: `none` is the nil map. -/
abbrev Data := Option Item

/-- A `[]map[string]interface{}` value: `none` is the nil slice. -/
abbrev Slice := Option (List Data)

/-- A `chan map[string]interface{}` value: `none` is the nil channel, `some evs` a channel
on which `evs` are sent, in this order, before it is closed. -/
abbrev Chan := Option (List Data)

/-- The elements of a slice (what `range` visits): none for the nil slice. -/
def Slice.items : Slice → List Data
  | none => []
  | some l => l

/-- Go `append(result, item)`: appending to the nil slice allocates. -/
def Slice.append : Slice → Data → Slice
  | none, item => some [item]
  | some l, item => some (l ++ [item])

/-- Modelled from the spec: package `httperror` is not among the sources.  The spec only
speaks of "a distinguished not-found error carrying the requested identifier"; an error
code is a name. -/
structure ErrorCode where
  Code : String
  deriving DecidableEq, Repr

/-- Modelled from the spec: the not-found code of package `httperror`. -/
def NotFound : ErrorCode := ⟨"NotFound"⟩

/-- A Go `error` value that is not nil: an API error made by `httperror.NewAPIError`, or
any other error (of the inner store, of a transformer, of a context). -/
inductive Error where
  | APIError (Code : ErrorCode) (Message : String)
  | other (text : String)
  deriving DecidableEq, Repr

/-- Modelled from the spec: `httperror.NewAPIError(code, message)`. -/
def NewAPIError (code : ErrorCode) (message : String) : Error :=
  Error.APIError code message

/-- The struct `types.QueryOptions`, of which this package only fills `Options`. -/
structure QueryOptions where
  Options : List (String × String)
  deriving DecidableEq, Repr

/-- The struct `types.Schema`; only its plural name is read (for the trace). -/
structure Schema where
  PluralName : String
  deriving DecidableEq, Repr

/-- Modelled from the spec: the request context "supplies (a) a boolean power mode
decision, (b) a cancellation signal, (c) a force trace flag".  `NeedPower` is what
`parse.NeedPower(apiContext)` reports, `NeedForceTrace` what `parse.NeedForceTrace` reports
and `ctxErr` is `apiContext.Request.Context().Err()`: nil while the request is live, the
cancellation or deadline error afterwards. -/
structure APIContext where
  NeedPower : Bool
  NeedForceTrace : Bool
  ctxErr : Option Error
  deriving DecidableEq, Repr

/-- The interface `types.Store` that the decorator wraps: each method is a call with
effects on the world. -/
structure Store (σ : Type) where
  ByID : APIContext → Schema → String → σ → (Data × Option Error) × σ
  List : APIContext → Schema → Option QueryOptions → σ → (Slice × Option Error) × σ
  Create : APIContext → Schema → Data → σ → (Data × Option Error) × σ
  Update : APIContext → Schema → Data → String → σ → (Data × Option Error) × σ
  Delete : APIContext → Schema → String → σ → (Data × Option Error) × σ
  Watch : APIContext → Schema → Option QueryOptions → σ → (Chan × Option Error) × σ

end types

/-- What running a Go call gives: it returns values and leaves a world, or it panics. -/
inductive Outcome (σ α : Type) where
  | returns (val : α) (world : σ)
  | panics
  deriving DecidableEq, Repr

namespace convert

open types

/-- The relay loop of `convert.Chan`: for each value read from the source, call `f` and
send the result on unless it is nil. -/
def relay {σ : Type} (f : Data → σ → Outcome σ Data) : List Data → σ → Outcome σ (List Data)
  | [], w => Outcome.returns [] w
  | data :: rest, w =>
    match f data w with
    | Outcome.panics => Outcome.panics
    | Outcome.returns modified w1 =>
      match relay f rest w1 with
      | Outcome.panics => Outcome.panics
      | Outcome.returns out w2 =>
        match modified with
        | none => Outcome.returns out w2
        | some m => Outcome.returns (some m :: out) w2

/-- Modelled from the spec: `convert.Chan` is not among the sources.  "For every item read
from the source channel, apply the transformer; [...] the derived channel emits nothing for
that item [when the function gives nil]; [...] The derived channel closes when and only when
the source channel closes."  A nil source gives a nil channel.  The relay goroutine is run
to the close of the source, so the world returned is the one it leaves. -/
def Chan {σ : Type} (c : types.Chan) (f : Data → σ → Outcome σ Data) (w : σ) :
    Outcome σ types.Chan :=
  match c with
  | none => Outcome.returns none w
  | some evs =>
    match relay f evs w with
    | Outcome.panics => Outcome.panics
    | Outcome.returns out w1 => Outcome.returns (some out) w1

end convert

namespace transform

open types

/-- The type `TransformerFunc`. -/
abbrev TransformerFunc (σ : Type) :=
  APIContext → Schema → Data → Option QueryOptions → σ → (Data × Option Error) × σ

/-- The type `ListTransformerFunc`. -/
abbrev ListTransformerFunc (σ : Type) :=
  APIContext → Schema → Slice → Option QueryOptions → σ → (Slice × Option Error) × σ

/-- The type `StreamTransformerFunc`. -/
abbrev StreamTransformerFunc (σ : Type) :=
  APIContext → Schema → Chan → Option QueryOptions → σ → (Chan × Option Error) × σ

set_option linter.dupNamespace false in
/-- The struct `transform.Store`; any of the three func fields may be nil. -/
structure Store (σ : Type) where
  Store : types.Store σ
  Transformer : Option (TransformerFunc σ)
  ListTransformer : Option (ListTransformerFunc σ)
  StreamTransformer : Option (StreamTransformerFunc σ)

/-- The options `ByID` hands to the transformer: `Options: {"ByID": "true"}`. -/
def byIDOptions : QueryOptions := ⟨[("ByID", "true")]⟩

/-- A call `s.Transformer(apiContext, schema, data, opt)`: a panic when the field is nil. -/
def Store.callTransformer {σ : Type} (s : transform.Store σ) (apiContext : APIContext) (schema : Schema)
    (data : Data) (opt : Option QueryOptions) (w : σ) : Outcome σ (Data × Option Error) :=
  match s.Transformer with
  | none => Outcome.panics
  | some t => Outcome.returns (t apiContext schema data opt w).1 (t apiContext schema data opt w).2

/-- The method `(*Store).ByID`. -/
def Store.ByID {σ : Type} (s : transform.Store σ) (apiContext : APIContext) (schema : Schema)
    (id : String) (w : σ) : Outcome σ (Data × Option Error) :=
  match s.Store.ByID apiContext schema id w with
  | ((_, some err), w1) => Outcome.returns (none, some err) w1
  | ((data, none), w1) =>
    match s.Transformer with
    | none => Outcome.returns (data, none) w1
    | some t =>
      match t apiContext schema data (some byIDOptions) w1 with
      | ((none, none), w2) =>
        Outcome.returns (none, some (NewAPIError NotFound (id ++ " not found"))) w2
      | ((obj, err), w2) => Outcome.returns (obj, err) w2

/-- The func literal `Watch` hands to `convert.Chan`: the transformed item, nil on error. -/
def Store.watchFunc {σ : Type} (s : transform.Store σ) (apiContext : APIContext) (schema : Schema)
    (opt : Option QueryOptions) (data : Data) (w : σ) : Outcome σ Data :=
  match s.callTransformer apiContext schema data opt w with
  | Outcome.panics => Outcome.panics
  | Outcome.returns (_, some _) w1 => Outcome.returns none w1
  | Outcome.returns (item, none) w1 => Outcome.returns item w1

/-- The method `(*Store).Watch`. -/
def Store.Watch {σ : Type} (s : transform.Store σ) (apiContext : APIContext) (schema : Schema)
    (opt : Option QueryOptions) (w : σ) : Outcome σ (Chan × Option Error) :=
  match s.Store.Watch apiContext schema opt w with
  | ((_, some err), w1) => Outcome.returns (none, some err) w1
  | ((c, none), w1) =>
    match s.StreamTransformer with
    | some st => Outcome.returns (st apiContext schema c opt w1).1 (st apiContext schema c opt w1).2
    | none =>
      match convert.Chan c (s.watchFunc apiContext schema opt) w1 with
      | Outcome.panics => Outcome.panics
      | Outcome.returns out w2 => Outcome.returns (out, none) w2

/-- The loop of the sequential `List` over the items still to visit, with the `result`
built so far: stop at the first error, skip nil items, append the others. -/
def listLoop {σ : Type} (t : TransformerFunc σ) (apiContext : APIContext) (schema : Schema)
    (opt : Option QueryOptions) : List Data → Slice → σ → (Slice × Option Error) × σ
  | [], result, w => ((result, none), w)
  | item :: rest, result, w =>
    match t apiContext schema item opt w with
    | ((_, some err), w1) => ((none, some err), w1)
    | ((some it, none), w1) => listLoop t apiContext schema opt rest (result.append (some it)) w1
    | ((none, none), w1) => listLoop t apiContext schema opt rest result w1

/-- The method `(*Store).Create`. -/
def Store.Create {σ : Type} (s : transform.Store σ) (apiContext : APIContext) (schema : Schema)
    (data : Data) (w : σ) : Outcome σ (Data × Option Error) :=
  match s.Store.Create apiContext schema data w with
  | ((_, some err), w1) => Outcome.returns (none, some err) w1
  | ((data1, none), w1) =>
    match s.Transformer with
    | none => Outcome.returns (data1, none) w1
    | some t => Outcome.returns (t apiContext schema data1 none w1).1 (t apiContext schema data1 none w1).2

/-- The method `(*Store).Update`. -/
def Store.Update {σ : Type} (s : transform.Store σ) (apiContext : APIContext) (schema : Schema)
    (data : Data) (id : String) (w : σ) : Outcome σ (Data × Option Error) :=
  match s.Store.Update apiContext schema data id w with
  | ((_, some err), w1) => Outcome.returns (none, some err) w1
  | ((data1, none), w1) =>
    match s.Transformer with
    | none => Outcome.returns (data1, none) w1
    | some t => Outcome.returns (t apiContext schema data1 none w1).1 (t apiContext schema data1 none w1).2

/-- The method `(*Store).Delete`: the transformer is called without a nil check. -/
def Store.Delete {σ : Type} (s : transform.Store σ) (apiContext : APIContext) (schema : Schema)
    (id : String) (w : σ) : Outcome σ (Data × Option Error) :=
  match s.Store.Delete apiContext schema id w with
  | ((obj, some err), w1) => Outcome.returns (obj, some err) w1
  | ((none, none), w1) => Outcome.returns (none, none) w1
  | ((some obj, none), w1) => s.callTransformer apiContext schema (some obj) none w1

/-- The reading of the spec's words "the input mapped through the transformer": what the
transformer gives for each item in turn, each call starting in the world the one before
left, and the world after the last call.  Nothing is dropped and nothing stops the walk. -/
def transformAll {σ : Type} (t : TransformerFunc σ) (apiContext : APIContext) (schema : Schema)
    (opt : Option QueryOptions) : List Data → σ → List (Data × Option Error) × σ
  | [], w => ([], w)
  | item :: rest, w =>
    ((t apiContext schema item opt w).1 ::
        (transformAll t apiContext schema opt rest (t apiContext schema item opt w).2).1,
      (transformAll t apiContext schema opt rest (t apiContext schema item opt w).2).2)

/-- What a list or a stream keeps of a transformer result: the item, when there is one
and no error. -/
def kept : Data × Option Error → Option Data
  | (_, some _) => none
  | (none, none) => none
  | (some item, none) => some (some item)

/-! ### Power mode: the goroutines of `powerList`

`powerList` starts one goroutine per item with `eg.Go` and then blocks in `eg.Wait()`.
The runs of this concurrent part are given by a step function over configurations: a
schedule names, move by move, who moves: the caller running the `for` loop and
`eg.Wait()`, the goroutine started for item `i`, or the environment that cancels the
request context.  Each step of a thread is one access to shared state: a transformer call,
`m.Lock()`, the read and the write of `result = append(result, val)`, `m.Unlock()`, and
the hand-over of the func result to the group (`errOnce` and `wg.Done()` of package
errgroup). -/

/-- Where a goroutine started by `eg.Go` stands. -/
inductive Goroutine where
  /-- Started with its `itemCopy`; the transformer is still to be called. -/
  | ready (itemCopy : Data)
  /-- The transformer gave a non-nil `val`; `m.Lock()` is next. -/
  | wantLock (val : Item)
  /-- It holds `m`; `result` is still to be read. -/
  | holding (val : Item)
  /-- It has read `result` (the value `old`); the assignment is next. -/
  | appending (val : Item) (old : Slice)
  /-- It has assigned `result`; `m.Unlock()` is next. -/
  | written
  /-- The func literal has returned `err`; the group is still to take it. -/
  | returning (err : Option Error)
  /-- The group has recorded the result and `wg.Done()` has run. -/
  | done (err : Option Error)
  deriving DecidableEq, Repr

/-- Where the func literal goes once the transformer has given `(val, err)`: it returns
`err` when that is not nil, goes on to lock `m` when `val` is not nil, and returns nil
otherwise. -/
def Goroutine.afterCall : Data × Option Error → Goroutine
  | (_, some err) => Goroutine.returning (some err)
  | (some val, none) => Goroutine.wantLock val
  | (none, none) => Goroutine.returning none

/-- Whether `wg.Done()` has run for the goroutine. -/
def Goroutine.isDone : Goroutine → Bool
  | Goroutine.done _ => true
  | _ => false

/-- The shared state of the concurrent part of `powerList`. -/
structure Config (σ : Type) where
  /-- The world the transformer calls act on. -/
  world : σ
  /-- What `apiContext.Request.Context().Err()` gives at this moment: nil until the
  request is cancelled or times out. -/
  ctxErr : Option Error
  /-- The items the `for` loop has still to visit. -/
  rest : List Data
  /-- The goroutines started so far, in the order of their start. -/
  units : List Goroutine
  /-- Whether the mutex `m` is held. -/
  m : Bool
  /-- The variable `result`. -/
  result : Slice
  /-- The field `err` of the group, set once by the first func that returns an error. -/
  egErr : Option Error
  /-- Whether the context derived by `errgroup.WithContext` is cancelled; the code
  discards that context (`eg, _ :=`), so nothing reads this. -/
  egCtxDone : Bool
  /-- The values `powerList` returned, once `eg.Wait()` is over. -/
  ret : Option (Slice × Option Error)
  /-- History, read by no step: the transformer calls made so far, in the order they were
  made, each with the item it was given and the values it returned. -/
  calls : List (Data × (Data × Option Error))

/-- The configuration after `errgroup.WithContext(apiContext.Request.Context())`, before
the `for` loop over `data`. -/
def Config.init {σ : Type} (apiContext : APIContext) (data : List Data) (w : σ) : Config σ :=
  { world := w, ctxErr := apiContext.ctxErr, rest := data, units := [], m := false,
    result := none, egErr := none, egCtxDone := apiContext.ctxErr.isSome, ret := none,
    calls := [] }

/-- A step of the caller: the next `eg.Go` of the loop, or the return from `eg.Wait()`
once every goroutine is done (not enabled before). -/
def stepMain {σ : Type} (c : Config σ) : Option (Config σ) :=
  match c.ret with
  | some _ => none
  | none =>
    match c.rest with
    | item :: rest => some { c with rest := rest, units := c.units ++ [Goroutine.ready item] }
    | [] =>
      if c.units.all Goroutine.isDone then
        match c.egErr with
        | some err => some { c with egCtxDone := true, ret := some (none, some err) }
        | none => some { c with egCtxDone := true, ret := some (c.result, none) }
      else none

/-- A step of goroutine `i` (not enabled when it is done, not started, or waits for a
held mutex).  The transformer is called with the request as it is at that moment. -/
def stepUnit {σ : Type} (t : TransformerFunc σ) (apiContext : APIContext) (schema : Schema)
    (opt : Option QueryOptions) (i : Nat) (c : Config σ) : Option (Config σ) :=
  match c.units[i]? with
  | none => none
  | some (Goroutine.ready itemCopy) =>
    some { c with
      world := (t { apiContext with ctxErr := c.ctxErr } schema itemCopy opt c.world).2,
      units := c.units.set i (Goroutine.afterCall
        (t { apiContext with ctxErr := c.ctxErr } schema itemCopy opt c.world).1),
      calls := c.calls ++
        [(itemCopy, (t { apiContext with ctxErr := c.ctxErr } schema itemCopy opt c.world).1)] }
  | some (Goroutine.wantLock val) =>
    if c.m then none else some { c with m := true, units := c.units.set i (Goroutine.holding val) }
  | some (Goroutine.holding val) =>
    some { c with units := c.units.set i (Goroutine.appending val c.result) }
  | some (Goroutine.appending val old) =>
    some { c with result := old.append (some val), units := c.units.set i Goroutine.written }
  | some Goroutine.written =>
    some { c with m := false, units := c.units.set i (Goroutine.returning none) }
  | some (Goroutine.returning err) =>
    some { c with
      egErr := (match c.egErr with | some first => some first | none => err),
      egCtxDone := c.egCtxDone || err.isSome,
      units := c.units.set i (Goroutine.done err) }
  | some (Goroutine.done _) => none

/-- A step of the environment: the request context, live so far, is cancelled or times
out with `err`; the context derived from it is cancelled with it. -/
def stepCancel {σ : Type} (err : Error) (c : Config σ) : Option (Config σ) :=
  match c.ctxErr with
  | some _ => none
  | none => some { c with ctxErr := some err, egCtxDone := true }

/-- Who moves in a step of a run. -/
inductive Move where
  /-- The caller of `powerList`. -/
  | caller
  /-- The goroutine started for item `i` (counted from 0). -/
  | unit (i : Nat)
  /-- The environment: the request context is cancelled or times out with `err`. -/
  | cancel (err : Error)
  deriving DecidableEq, Repr

/-- A schedule: the moves of a run, in their order. -/
abbrev Schedule := List Move

/-- One step of a run. -/
def step {σ : Type} (t : TransformerFunc σ) (apiContext : APIContext) (schema : Schema)
    (opt : Option QueryOptions) (mv : Move) (c : Config σ) : Option (Config σ) :=
  match mv with
  | Move.caller => stepMain c
  | Move.unit i => stepUnit t apiContext schema opt i c
  | Move.cancel err => stepCancel err c

/-- The configuration a schedule leads to; `none` when it names a move that is not
enabled. -/
def run {σ : Type} (t : TransformerFunc σ) (apiContext : APIContext) (schema : Schema)
    (opt : Option QueryOptions) : Schedule → Config σ → Option (Config σ)
  | [], c => some c
  | mv :: sched, c =>
    match step t apiContext schema opt mv c with
    | none => none
    | some c1 => run t apiContext schema opt sched c1

/-- The method `(*Store).powerList`, under the schedule `sched` of its goroutines: `none`
when `sched` is not the schedule of a run up to the return of `powerList`. -/
def Store.powerList {σ : Type} (s : transform.Store σ) (apiContext : APIContext)
    (schema : Schema) (opt : Option QueryOptions) (sched : Schedule) (w : σ) :
    Option (Outcome σ (Slice × Option Error)) :=
  match s.Store.List apiContext schema opt w with
  | ((_, some err), w1) => some (Outcome.returns (none, some err) w1)
  | ((data, none), w1) =>
    match s.ListTransformer with
    | some lt =>
      some (Outcome.returns (lt apiContext schema data opt w1).1 (lt apiContext schema data opt w1).2)
    | none =>
      match s.Transformer with
      | none => some (Outcome.returns (data, none) w1)
      | some t =>
        match run t apiContext schema opt sched (Config.init apiContext data.items w1) with
        | none => none
        | some c =>
          match c.ret with
          | none => none
          | some r => some (Outcome.returns r c.world)

/-- The method `(*Store).List`; `sched` is the schedule of the goroutines of power mode and
plays no part otherwise. -/
def Store.List {σ : Type} (s : transform.Store σ) (apiContext : APIContext)
    (schema : Schema) (opt : Option QueryOptions) (sched : Schedule) (w : σ) :
    Option (Outcome σ (Slice × Option Error)) :=
  if apiContext.NeedPower then s.powerList apiContext schema opt sched w
  else
    match s.Store.List apiContext schema opt w with
    | ((_, some err), w1) => some (Outcome.returns (none, some err) w1)
    | ((data, none), w1) =>
      match s.ListTransformer with
      | some lt =>
        some (Outcome.returns (lt apiContext schema data opt w1).1 (lt apiContext schema data opt w1).2)
      | none =>
        match s.Transformer with
        | none => some (Outcome.returns (data, none) w1)
        | some t =>
          some (Outcome.returns (listLoop t apiContext schema opt data.items none w1).1
            (listLoop t apiContext schema opt data.items none w1).2)

/-! ### Invariants of the concurrent part -/

/-- Whether the goroutine is between `m.Lock()` and `m.Unlock()`. -/
def Goroutine.inCS : Goroutine → Bool
  | Goroutine.holding _ => true
  | Goroutine.appending _ _ => true
  | Goroutine.written => true
  | _ => false

/-- The number of steps the goroutine may still take. -/
def Goroutine.weight : Goroutine → Nat
  | Goroutine.ready _ => 6
  | Goroutine.wantLock _ => 5
  | Goroutine.holding _ => 4
  | Goroutine.appending _ _ => 3
  | Goroutine.written => 2
  | Goroutine.returning _ => 1
  | Goroutine.done _ => 0

/-- A bound on the number of steps left in a configuration. -/
def Config.measure {σ : Type} (c : Config σ) : Nat :=
  (if c.ret.isSome then 0 else 1) + (if c.ctxErr.isSome then 0 else 1) +
    7 * c.rest.length + (c.units.map Goroutine.weight).sum

/-- The facts about the mutex and the group that hold in every configuration a run
reaches, whatever the transformer: `m` is held exactly when one goroutine is between lock
and unlock, a goroutine about to assign `result` has read its current value, and
`powerList` has returned only after every goroutine of every item is done. -/
structure Config.Sound {σ : Type} (n : Nat) (c : Config σ) : Prop where
  lock : c.units.countP Goroutine.inCS = if c.m then 1 else 0
  fresh : ∀ val old, Goroutine.appending val old ∈ c.units → old = c.result
  started : c.units.length + c.rest.length = n
  returned : ∀ r, c.ret = some r → c.rest = [] ∧ (∀ u ∈ c.units, u.isDone = true) ∧
    r = (match c.egErr with | some err => (none, some err) | none => (c.result, none))

/-- The item a goroutine has got from the transformer and has still to append. -/
def Goroutine.owed : Goroutine → List Data
  | Goroutine.wantLock val => [some val]
  | Goroutine.holding val => [some val]
  | Goroutine.appending val _ => [some val]
  | _ => []

/-- The item a goroutine has still to hand to the transformer. -/
def Goroutine.waiting : Goroutine → List Data
  | Goroutine.ready itemCopy => [itemCopy]
  | _ => []

/-- Whether the goroutine has an error that it has still to hand to the group. -/
def Goroutine.failing : Goroutine → Bool
  | Goroutine.returning (some _) => true
  | _ => false

/-- The facts that hold in every configuration a run over `data` reaches, for every
transformer: what is in `result` or still to be appended is what the calls made so far
gave and a list keeps; every item of `data` has been given to exactly one call, or waits
in a goroutine or in the loop; every recorded call gave what the transformer gives for
its item in some world and some state of the request; the error of the group and the
errors on their way to it were given by a call; and no error of a call is lost. -/
structure Config.Logged {σ : Type} (t : TransformerFunc σ) (apiContext : APIContext)
    (schema : Schema) (opt : Option QueryOptions) (data : List Data) (c : Config σ) :
    Prop where
  items : (c.result.items ++ c.units.flatMap Goroutine.owed).Perm
    (c.calls.filterMap (fun entry => kept entry.2))
  inputs : (c.calls.map Prod.fst ++ (c.units.flatMap Goroutine.waiting ++ c.rest)).Perm data
  origin : ∀ entry ∈ c.calls, ∃ e w,
    entry.2 = (t { apiContext with ctxErr := e } schema entry.1 opt w).1
  errFrom : ∀ err, c.egErr = some err → ∃ entry ∈ c.calls, entry.2.2 = some err
  unitsErr : ∀ err, Goroutine.returning (some err) ∈ c.units →
    ∃ entry ∈ c.calls, entry.2.2 = some err
  errKept : (c.egErr.isSome || c.units.any Goroutine.failing) =
    c.calls.any (fun entry => entry.2.2.isSome)

end transform

/-! ### A worked instance

A small store whose world counts the transformer calls made so far. -/

namespace Example

open types transform

/-- A resource with the single field `id`. -/
def item (id : String) : Item := [("id", Value.str id)]

/-- The collection `[{"id":"a"},{"id":"b"},{"id":"c"}]` of the spec's scenario. -/
def abc : List Data := [some (item "a"), some (item "b"), some (item "c")]

/-- A request in the ordinary mode. -/
def apiContext : APIContext := ⟨false, false, none⟩

/-- A request in power mode. -/
def powerContext : APIContext := ⟨true, false, none⟩

/-- A request in power mode whose context is already cancelled. -/
def cancelledContext : APIContext := ⟨true, false, some (Error.other "context canceled")⟩

/-- Some schema. -/
def schema : Schema := ⟨"things"⟩

/-- An inner store whose calls succeed: it lists `abc`, finds and deletes `{"id":"a"}`,
echoes what is created or updated and watches the events `abc`. -/
def okStore : types.Store Nat :=
  { ByID := fun _ _ _ w => ((some (item "a"), none), w)
    List := fun _ _ _ w => ((some abc, none), w)
    Create := fun _ _ d w => ((d, none), w)
    Update := fun _ _ d _ w => ((d, none), w)
    Delete := fun _ _ _ w => ((some (item "a"), none), w)
    Watch := fun _ _ _ w => ((some abc, none), w) }

/-- An inner store whose calls all fail, handing back a value next to the error. -/
def failingStore : types.Store Nat :=
  { ByID := fun _ _ _ w => ((some (item "a"), some (Error.other "boom")), w)
    List := fun _ _ _ w => ((some abc, some (Error.other "boom")), w)
    Create := fun _ _ d w => ((d, some (Error.other "boom")), w)
    Update := fun _ _ d _ w => ((d, some (Error.other "boom")), w)
    Delete := fun _ _ _ w => ((some (item "a"), some (Error.other "boom")), w)
    Watch := fun _ _ _ w => ((some abc, some (Error.other "boom")), w) }

/-- An inner store that has nothing: no item, an empty collection, no event. -/
def emptyStore : types.Store Nat :=
  { ByID := fun _ _ _ w => ((none, none), w)
    List := fun _ _ _ w => ((some [], none), w)
    Create := fun _ _ _ w => ((none, none), w)
    Update := fun _ _ _ _ w => ((none, none), w)
    Delete := fun _ _ _ w => ((none, none), w)
    Watch := fun _ _ _ w => ((some [], none), w) }

/-- The transformer of the spec's scenario: it adds `"x": 1` to the item and never
drops one (a nil map is taken as the empty one). -/
def addX : TransformerFunc Nat :=
  fun _ _ d _ w => ((some (d.getD [] ++ [("x", Value.num 1)]), none), w + 1)

/-- The moves of the threads numbered 0 for the caller and `i + 1` for the goroutine of
item `i`. -/
def threads (ids : List Nat) : Schedule :=
  ids.map (fun id => match id with | 0 => Move.caller | i + 1 => Move.unit i)

/-- A schedule for three items: the caller starts the three goroutines, then the third,
the first and the second goroutine each run to their end, then `eg.Wait()` returns. -/
def thirdFirst : Schedule :=
  threads [0, 0, 0, 3, 3, 3, 3, 3, 3, 1, 1, 1, 1, 1, 1, 2, 2, 2, 2, 2, 2, 0]

/-- A schedule for three items where the goroutines take turns while the caller is still
in its loop. -/
def mixed : Schedule :=
  threads [0, 1, 0, 2, 2, 0, 3, 2, 2, 2, 1, 2, 1, 1, 1, 3, 1, 3, 3, 3, 3, 0]

/-- A schedule for three items of which the second fails in the transformer. -/
def secondFails : Schedule :=
  threads [0, 0, 0, 1, 2, 3, 1, 1, 2, 1, 1, 3, 1, 3, 3, 3, 3, 0]

/-- The schedule `thirdFirst` with the request cancelled after the first `eg.Go`. -/
def cancelledEarly : Schedule :=
  Move.caller :: Move.cancel (Error.other "context canceled") ::
    threads [0, 0, 3, 3, 3, 3, 3, 3, 1, 1, 1, 1, 1, 1, 2, 2, 2, 2, 2, 2, 0]

/-- A schedule for three items where the request is cancelled after the first goroutine
has called the transformer and before the two others do. -/
def cancelledMidway : Schedule :=
  threads [0, 0, 0, 1] ++ Move.cancel (Error.other "context canceled") ::
    threads [2, 3, 1, 1, 2, 1, 1, 3, 1, 0]

/-- A transformer whose item depends on the world: it adds the number of calls made
before to the item, and never drops one. -/
def stamp : TransformerFunc Nat :=
  fun _ _ d _ w => ((some (d.getD [] ++ [("n", Value.num w)]), none), w + 1)

/-- A transformer that looks at the request context: it returns the error of the context
once the request is cancelled, and hands the item back before. -/
def ctxAware : TransformerFunc Nat :=
  fun ac _ d _ w =>
    (match ac.ctxErr with
      | some err => (none, some err)
      | none => (d, none), w + 1)

/-- The identity transformer. -/
def identity : TransformerFunc Nat := fun _ _ d _ w => ((d, none), w + 1)

/-- A transformer that drops `{"id":"b"}` and passes the other items through. -/
def dropB : TransformerFunc Nat :=
  fun _ _ d _ w => ((if d = some (item "b") then none else d, none), w + 1)

/-- A transformer that fails on `{"id":"b"}` and passes the other items through. -/
def failB : TransformerFunc Nat :=
  fun _ _ d _ w =>
    (if d = some (item "b") then (none, some (Error.other "bad b")) else (d, none), w + 1)

/-- A transformer that drops every item. -/
def dropAll : TransformerFunc Nat := fun _ _ _ _ w => ((none, none), w + 1)

end Example

/-! ## Theorems -/

namespace transform

open types

section Sequential

variable {σ : Type}

theorem Slice_items_append (r : Slice) (x : Data) : (r.append x).items = r.items ++ [x] := by
  cases r <;> rfl

theorem transformAll_length (t : TransformerFunc σ) (ac : APIContext) (sc : Schema)
    (o : Option QueryOptions) (items : List Data) (w : σ) :
    (transformAll t ac sc o items w).1.length = items.length := by
  induction items generalizing w with
  | nil => rfl
  | cons item rest ih => simp [transformAll, ih]

/-- The sequential loop, when no call gives an error: it visits every item, keeps the
non-nil results in order, and leaves the world of the last call. -/
theorem listLoop_ok (t : TransformerFunc σ) (ac : APIContext) (sc : Schema)
    (o : Option QueryOptions) (items : List Data) (result : Slice) (w : σ)
    (hok : ∀ x ∈ (transformAll t ac sc o items w).1, x.2 = none) :
    ∃ r, listLoop t ac sc o items result w = ((r, none), (transformAll t ac sc o items w).2) ∧
      r.items = result.items ++ (transformAll t ac sc o items w).1.filterMap kept ∧
      (items = [] → r = result) := by
  induction items generalizing result w with
  | nil => exact ⟨result, rfl, by simp [transformAll], fun _ => rfl⟩
  | cons item rest ih =>
    have h1 : (t ac sc item o w).1.2 = none := hok _ (by simp [transformAll])
    have h2 : ∀ x ∈ (transformAll t ac sc o rest (t ac sc item o w).2).1, x.2 = none :=
      fun x hx => hok x (by simp [transformAll, hx])
    rcases hr : t ac sc item o w with ⟨⟨d, e⟩, w1⟩
    rw [hr] at h1 h2
    simp only at h1
    subst h1
    cases d with
    | none =>
      obtain ⟨r, hr1, hr2, _⟩ := ih result w1 h2
      refine ⟨r, ?_, ?_, by simp⟩
      · simp only [listLoop, hr, transformAll]; exact hr1
      · simp only [transformAll, hr, List.filterMap_cons, kept]; exact hr2
    | some it =>
      obtain ⟨r, hr1, hr2, _⟩ := ih (result.append (some it)) w1 h2
      refine ⟨r, ?_, ?_, by simp⟩
      · simp only [listLoop, hr, transformAll]; exact hr1
      · simp only [transformAll, hr, List.filterMap_cons, kept]
        rw [hr2, Slice_items_append]; simp

/-- The sequential loop, when the call for item `k` is the first to give an error: the
loop returns that error and a nil slice, in the world that call left. -/
theorem listLoop_err (t : TransformerFunc σ) (ac : APIContext) (sc : Schema)
    (o : Option QueryOptions) (items : List Data) (result : Slice) (w : σ) (k : Nat)
    (d : Data) (e : Error)
    (hk : (transformAll t ac sc o items w).1[k]? = some (d, some e))
    (hlt : ∀ j x, j < k → (transformAll t ac sc o items w).1[j]? = some x → x.2 = none) :
    listLoop t ac sc o items result w =
      ((none, some e), (transformAll t ac sc o (items.take (k + 1)) w).2) := by
  induction items generalizing result w k with
  | nil => simp [transformAll] at hk
  | cons item rest ih =>
    rcases hr : t ac sc item o w with ⟨⟨d1, e1⟩, w1⟩
    cases k with
    | zero =>
      simp only [transformAll, hr, List.getElem?_cons_zero, Option.some.injEq, Prod.mk.injEq] at hk
      obtain ⟨-, rfl⟩ := hk
      simp [listLoop, hr, transformAll]
    | succ k =>
      have h0 := hlt 0 (d1, e1) (Nat.succ_pos k) (by simp [transformAll, hr])
      simp only at h0
      subst h0
      simp only [transformAll, hr, List.getElem?_cons_succ] at hk
      have hlt1 : ∀ j x, j < k → (transformAll t ac sc o rest w1).1[j]? = some x → x.2 = none := by
        intro j x hj hx
        exact hlt (j + 1) x (Nat.succ_lt_succ hj) (by simpa [transformAll, hr] using hx)
      cases d1 with
      | none =>
        simp only [listLoop, hr, List.take_succ_cons, transformAll]
        exact ih result w1 k hk hlt1
      | some it =>
        simp only [listLoop, hr, List.take_succ_cons, transformAll]
        exact ih _ w1 k hk hlt1

/-- The relay of `Watch` with a per-item transformer: every event is transformed in turn
and the results with an item and no error are sent on, in order. -/
theorem relay_watchFunc (s : transform.Store σ) (t : TransformerFunc σ)
    (hT : s.Transformer = some t) (ac : APIContext) (sc : Schema) (o : Option QueryOptions)
    (evs : List Data) (w : σ) :
    convert.relay (s.watchFunc ac sc o) evs w =
      Outcome.returns ((transformAll t ac sc o evs w).1.filterMap kept)
        (transformAll t ac sc o evs w).2 := by
  induction evs generalizing w with
  | nil => rfl
  | cons ev rest ih =>
    rcases hr : t ac sc ev o w with ⟨⟨d, e⟩, w1⟩
    have hf : s.watchFunc ac sc o ev w =
        Outcome.returns (match e with | some _ => none | none => d) w1 := by
      simp only [Store.watchFunc, Store.callTransformer, hT, hr]
      cases e <;> rfl
    simp only [convert.relay, hf, ih, transformAll, hr, List.filterMap_cons]
    cases e <;> cases d <;> simp [kept]

theorem transformAll_append (t : TransformerFunc σ) (ac : APIContext) (sc : Schema)
    (o : Option QueryOptions) (xs ys : List Data) (w : σ) :
    transformAll t ac sc o (xs ++ ys) w =
      ((transformAll t ac sc o xs w).1 ++
          (transformAll t ac sc o ys (transformAll t ac sc o xs w).2).1,
        (transformAll t ac sc o ys (transformAll t ac sc o xs w).2).2) := by
  induction xs generalizing w with
  | nil => rfl
  | cons x xs ih => simp [transformAll, ih]

theorem filterMap_kept_of_ok (outs : List (Data × Option Error))
    (hok : ∀ x ∈ outs, x.2 = none) :
    outs.filterMap kept = (outs.map Prod.fst).filter (fun d => d.isSome) := by
  induction outs with
  | nil => rfl
  | cons x xs ih =>
    obtain ⟨d, e⟩ := x
    have he : e = none := hok (d, e) (by simp)
    subst he
    have ih1 := ih (fun y hy => hok y (by simp [hy]))
    cases d <;> simp [kept, ih1]

theorem filter_isSome_of_all (l : List Data) (h : ∀ d ∈ l, d ≠ none) :
    l.filter (fun d => d.isSome) = l := by
  rw [List.filter_eq_self]
  intro d hd
  cases d with
  | none => exact absurd rfl (h none hd)
  | some _ => rfl

theorem filter_isSome_set_none (l : List Data) (k : Nat) (h : ∀ d ∈ l, d ≠ none) :
    (l.set k none).filter (fun d => d.isSome) = l.eraseIdx k := by
  induction l generalizing k with
  | nil => rfl
  | cons x xs ih =>
    have hx : x ≠ none := h x (by simp)
    have hxs : ∀ d ∈ xs, d ≠ none := fun d hd => h d (by simp [hd])
    cases k with
    | zero => simp [filter_isSome_of_all xs hxs]
    | succ k =>
      cases x with
      | none => exact absurd rfl hx
      | some it => simp [ih k hxs]

/-- C1: sequential `List` with no list transformer and a per-item transformer whose calls
give no error returns exactly the non-nil transformer outputs, in the order of the input
items.  In particular it returns the input itself when the transformer hands every item
back, and the input without item `k` when the transformer drops item `k` and hands the
others back. -/
theorem List_sequential_order (s : transform.Store σ) (t : TransformerFunc σ)
    (hL : s.ListTransformer = none) (hT : s.Transformer = some t)
    (ac : APIContext) (hP : ac.NeedPower = false) (sc : Schema) (o : Option QueryOptions)
    (sched : Schedule) (w : σ) (data : Slice) (w1 : σ)
    (hinner : s.Store.List ac sc o w = ((data, none), w1))
    (hok : ∀ x ∈ (transformAll t ac sc o data.items w1).1, x.2 = none) :
    ∃ r, s.List ac sc o sched w =
        some (Outcome.returns (r, none) (transformAll t ac sc o data.items w1).2) ∧
      r.items =
        ((transformAll t ac sc o data.items w1).1.map Prod.fst).filter (fun d => d.isSome) ∧
      ((∀ d ∈ data.items, d ≠ none) →
        (transformAll t ac sc o data.items w1).1.map Prod.fst = data.items →
        r.items = data.items) ∧
      (∀ k, (∀ d ∈ data.items, d ≠ none) →
        (transformAll t ac sc o data.items w1).1.map Prod.fst = data.items.set k none →
        r.items = data.items.eraseIdx k) := by
  obtain ⟨r, hr1, hr2, -⟩ := listLoop_ok t ac sc o data.items none w1 hok
  have hr3 : r.items =
      ((transformAll t ac sc o data.items w1).1.map Prod.fst).filter (fun d => d.isSome) := by
    rw [hr2, filterMap_kept_of_ok _ hok]; rfl
  refine ⟨r, ?_, hr3, ?_, ?_⟩
  · simp only [Store.List, hP, hinner, hL, hT, hr1]; rfl
  · intro hne hid
    rw [hr3, hid, filter_isSome_of_all _ hne]
  · intro k hne hdrop
    rw [hr3, hdrop, filter_isSome_set_none _ k hne]

theorem List_sequential_order_witness :
    Example.apiContext.NeedPower = false ∧
    (∃ r, (⟨Example.okStore, some Example.dropB, none, none⟩ : transform.Store Nat).List
        Example.apiContext Example.schema none [] 0 = some (Outcome.returns (r, none) 3) ∧
      r.items = [some (Example.item "a"), some (Example.item "c")] ∧
      r.items = Example.abc.eraseIdx 1) ∧
    (∃ r, (⟨Example.okStore, some Example.identity, none, none⟩ : transform.Store Nat).List
        Example.apiContext Example.schema none [] 0 = some (Outcome.returns (r, none) 3) ∧
      r.items = Example.abc) := by
  refine ⟨rfl, ?_, ?_⟩
  · obtain ⟨r, h1, h2, -, h4⟩ := List_sequential_order
      (⟨Example.okStore, some Example.dropB, none, none⟩ : transform.Store Nat) Example.dropB
      rfl rfl Example.apiContext rfl Example.schema none [] 0 (some Example.abc) 0 rfl
      (by decide)
    exact ⟨r, h1, h2, h4 1 (by decide) rfl⟩
  · obtain ⟨r, h1, -, h3, -⟩ := List_sequential_order
      (⟨Example.okStore, some Example.identity, none, none⟩ : transform.Store Nat)
      Example.identity rfl rfl Example.apiContext rfl Example.schema none [] 0
      (some Example.abc) 0 rfl (by decide)
    exact ⟨r, h1, h3 (by decide) rfl⟩

/-- C2: when the inner `ByID` succeeds and the transformer gives no item and no error,
`ByID` returns no item and the NotFound API error with the message "<id> not found". -/
theorem ByID_not_found (s : transform.Store σ) (t : TransformerFunc σ)
    (hT : s.Transformer = some t) (ac : APIContext) (sc : Schema) (id : String) (w : σ)
    (data : Data) (w1 w2 : σ)
    (hinner : s.Store.ByID ac sc id w = ((data, none), w1))
    (hdrop : t ac sc data (some byIDOptions) w1 = ((none, none), w2)) :
    s.ByID ac sc id w =
      Outcome.returns (none, some (Error.APIError NotFound (id ++ " not found"))) w2 := by
  simp only [Store.ByID, hinner, hT, hdrop, NewAPIError]

theorem ByID_not_found_witness :
    (⟨Example.okStore, some Example.dropAll, none, none⟩ : transform.Store Nat).ByID
        Example.apiContext Example.schema "a" 0 =
      Outcome.returns (none, some (Error.APIError NotFound "a not found")) 1 :=
  ByID_not_found (⟨Example.okStore, some Example.dropAll, none, none⟩ : transform.Store Nat)
    Example.dropAll rfl Example.apiContext Example.schema "a" 0 (some (Example.item "a")) 0 1
    rfl rfl

/-- C5: sequential `List` with no list transformer and a per-item transformer: when the
call for item `k` gives an error and no call for an earlier item does, `List` returns that
error with a nil collection, in the world the failing call left (no later item is
transformed). -/
theorem List_sequential_first_error (s : transform.Store σ) (t : TransformerFunc σ)
    (hL : s.ListTransformer = none) (hT : s.Transformer = some t)
    (ac : APIContext) (hP : ac.NeedPower = false) (sc : Schema) (o : Option QueryOptions)
    (sched : Schedule) (w : σ) (data : Slice) (w1 : σ)
    (hinner : s.Store.List ac sc o w = ((data, none), w1))
    (k : Nat) (d : Data) (e : Error)
    (hk : (transformAll t ac sc o data.items w1).1[k]? = some (d, some e))
    (hlt : ∀ j x, j < k → (transformAll t ac sc o data.items w1).1[j]? = some x → x.2 = none) :
    s.List ac sc o sched w =
      some (Outcome.returns (none, some e)
        (transformAll t ac sc o (data.items.take (k + 1)) w1).2) := by
  have h := listLoop_err t ac sc o data.items none w1 k d e hk hlt
  simp only [Store.List, hP, hinner, hL, hT, h]; rfl

theorem List_sequential_first_error_witness :
    (⟨Example.okStore, some Example.failB, none, none⟩ : transform.Store Nat).List
        Example.apiContext Example.schema none [] 0 =
      some (Outcome.returns (none, some (Error.other "bad b")) 2) :=
  List_sequential_first_error
    (⟨Example.okStore, some Example.failB, none, none⟩ : transform.Store Nat) Example.failB
    rfl rfl Example.apiContext rfl Example.schema none [] 0 (some Example.abc) 0 rfl
    1 none (Error.other "bad b") (by decide)
    (fun j x hj hx => by
      obtain rfl : j = 0 := by omega
      have h0 : (transformAll Example.failB Example.apiContext Example.schema none
          (Slice.items (some Example.abc)) 0).1[0]? = some (some (Example.item "a"), none) := rfl
      rw [h0] at hx
      cases hx
      rfl)

/-- C6: when the inner `Delete` returns no item and no error, `Delete` returns no item and
no error in the world the inner call left, so without a transformer call; when the inner
`Delete` returns an item and no error, `Delete` returns what the configured transformer
gives for that item with nil query options. -/
theorem Delete_short_circuit (s : transform.Store σ) (ac : APIContext) (sc : Schema)
    (id : String) (w : σ) :
    (∀ w1, s.Store.Delete ac sc id w = ((none, none), w1) →
      s.Delete ac sc id w = Outcome.returns (none, none) w1) ∧
    (∀ t obj w1, s.Transformer = some t →
      s.Store.Delete ac sc id w = ((some obj, none), w1) →
      s.Delete ac sc id w =
        Outcome.returns (t ac sc (some obj) none w1).1 (t ac sc (some obj) none w1).2) := by
  constructor
  · intro w1 h
    simp only [Store.Delete, h]
  · intro t obj w1 hT h
    simp only [Store.Delete, h, Store.callTransformer, hT]

theorem Delete_short_circuit_witness :
    (⟨Example.emptyStore, some Example.addX, none, none⟩ : transform.Store Nat).Delete
        Example.apiContext Example.schema "a" 0 = Outcome.returns (none, none) 0 ∧
    (⟨Example.okStore, some Example.addX, none, none⟩ : transform.Store Nat).Delete
        Example.apiContext Example.schema "a" 0 =
      Outcome.returns (some [("id", Value.str "a"), ("x", Value.num 1)], none) 1 :=
  ⟨(Delete_short_circuit (⟨Example.emptyStore, some Example.addX, none, none⟩ :
      transform.Store Nat) Example.apiContext Example.schema "a" 0).1 0 rfl,
   (Delete_short_circuit (⟨Example.okStore, some Example.addX, none, none⟩ :
      transform.Store Nat) Example.apiContext Example.schema "a" 0).2
      Example.addX (Example.item "a") 0 rfl rfl⟩

/-- C9: `Watch` with a per-item transformer and no stream transformer delivers, in source
order, exactly the items of the events whose transform gave an item and no error.  An event
whose transform gives an error adds nothing and does not end the stream: what is delivered
is what the events before it give followed by what the events after it give. -/
theorem Watch_stream_error_tolerance (s : transform.Store σ) (t : TransformerFunc σ)
    (hS : s.StreamTransformer = none) (hT : s.Transformer = some t)
    (ac : APIContext) (sc : Schema) (o : Option QueryOptions) (w : σ)
    (evs : List Data) (w1 : σ)
    (hinner : s.Store.Watch ac sc o w = ((some evs, none), w1)) :
    s.Watch ac sc o w =
        Outcome.returns (some ((transformAll t ac sc o evs w1).1.filterMap kept), none)
          (transformAll t ac sc o evs w1).2 ∧
      ∀ before ev after, evs = before ++ ev :: after →
        (t ac sc ev o (transformAll t ac sc o before w1).2).1.2 ≠ none →
        (transformAll t ac sc o evs w1).1.filterMap kept =
          (transformAll t ac sc o before w1).1.filterMap kept ++
            (transformAll t ac sc o after
              (t ac sc ev o (transformAll t ac sc o before w1).2).2).1.filterMap kept := by
  constructor
  · simp only [Store.Watch, hinner, hS, convert.Chan, relay_watchFunc s t hT]
  · intro before ev after hevs herr
    subst hevs
    rw [transformAll_append]
    simp only [transformAll, List.filterMap_append, List.filterMap_cons]
    rcases hr : t ac sc ev o (transformAll t ac sc o before w1).2 with ⟨⟨d, e⟩, w2⟩
    rw [hr] at herr
    cases e with
    | none => exact absurd rfl herr
    | some e => simp [kept]

theorem Watch_stream_error_tolerance_witness :
    (⟨Example.okStore, some Example.failB, none, none⟩ : transform.Store Nat).Watch
        Example.apiContext Example.schema none 0 =
      Outcome.returns (some [some (Example.item "a"), some (Example.item "c")], none) 3 :=
  (Watch_stream_error_tolerance
    (⟨Example.okStore, some Example.failB, none, none⟩ : transform.Store Nat) Example.failB
    rfl rfl Example.apiContext Example.schema none 0 Example.abc 0 rfl).1

/-- C4: when the call of the inner store returns an error, each of `ByID`, `List` (in
either mode, under any schedule), `powerList`, `Watch`, `Create`, `Update` and `Delete`
returns that very error, in the world the inner call left: whatever transformers are
configured, none of them is called. -/
theorem upstream_error_propagation (s : transform.Store σ) (ac : APIContext) (sc : Schema)
    (w : σ) :
    (∀ id raw err w1, s.Store.ByID ac sc id w = ((raw, some err), w1) →
      s.ByID ac sc id w = Outcome.returns (none, some err) w1) ∧
    (∀ o sched raw err w1, s.Store.List ac sc o w = ((raw, some err), w1) →
      s.List ac sc o sched w = some (Outcome.returns (none, some err) w1)) ∧
    (∀ o sched raw err w1, s.Store.List ac sc o w = ((raw, some err), w1) →
      s.powerList ac sc o sched w = some (Outcome.returns (none, some err) w1)) ∧
    (∀ o raw err w1, s.Store.Watch ac sc o w = ((raw, some err), w1) →
      s.Watch ac sc o w = Outcome.returns (none, some err) w1) ∧
    (∀ data raw err w1, s.Store.Create ac sc data w = ((raw, some err), w1) →
      s.Create ac sc data w = Outcome.returns (none, some err) w1) ∧
    (∀ data id raw err w1, s.Store.Update ac sc data id w = ((raw, some err), w1) →
      s.Update ac sc data id w = Outcome.returns (none, some err) w1) ∧
    (∀ id raw err w1, s.Store.Delete ac sc id w = ((raw, some err), w1) →
      s.Delete ac sc id w = Outcome.returns (raw, some err) w1) := by
  refine ⟨?_, ?_, ?_, ?_, ?_, ?_, ?_⟩
  · intro id raw err w1 h
    simp only [Store.ByID, h]
  · intro o sched raw err w1 h
    cases hP : ac.NeedPower <;> simp [Store.List, Store.powerList, hP, h]
  · intro o sched raw err w1 h
    simp only [Store.powerList, h]
  · intro o raw err w1 h
    simp only [Store.Watch, h]
  · intro data raw err w1 h
    simp only [Store.Create, h]
  · intro data id raw err w1 h
    simp only [Store.Update, h]
  · intro id raw err w1 h
    simp only [Store.Delete, h]

theorem upstream_error_propagation_witness :
    (⟨Example.failingStore, some Example.addX, none, none⟩ : transform.Store Nat).ByID
        Example.apiContext Example.schema "a" 0 =
      Outcome.returns (none, some (Error.other "boom")) 0 ∧
    (⟨Example.failingStore, some Example.addX, none, none⟩ : transform.Store Nat).List
        Example.powerContext Example.schema none [] 0 =
      some (Outcome.returns (none, some (Error.other "boom")) 0) ∧
    (⟨Example.failingStore, some Example.addX, none, none⟩ : transform.Store Nat).Delete
        Example.apiContext Example.schema "a" 0 =
      Outcome.returns (some (Example.item "a"), some (Error.other "boom")) 0 :=
  ⟨(upstream_error_propagation (⟨Example.failingStore, some Example.addX, none, none⟩ :
      transform.Store Nat) Example.apiContext Example.schema 0).1
      "a" (some (Example.item "a")) (Error.other "boom") 0 rfl,
   (upstream_error_propagation (⟨Example.failingStore, some Example.addX, none, none⟩ :
      transform.Store Nat) Example.powerContext Example.schema 0).2.1
      none [] (some Example.abc) (Error.other "boom") 0 rfl,
   (upstream_error_propagation (⟨Example.failingStore, some Example.addX, none, none⟩ :
      transform.Store Nat) Example.apiContext Example.schema 0).2.2.2.2.2.2
      "a" (some (Example.item "a")) (Error.other "boom") 0 rfl⟩

/-- C3, as stated, fails: with no transformer configured, `ByID` on an inner result that
carries both an item and an error returns a nil item and not the raw pair; `Delete` on an
inner result with an item panics, and so does `Watch` on a source with an event, because
both call the nil `Transformer`. -/
theorem no_transformer_pass_through_counterexample :
    (⟨Example.failingStore, none, none, none⟩ : transform.Store Nat).ByID
        Example.apiContext Example.schema "a" 0 ≠
      Outcome.returns (Example.failingStore.ByID Example.apiContext Example.schema "a" 0).1
        (Example.failingStore.ByID Example.apiContext Example.schema "a" 0).2 ∧
    (⟨Example.okStore, none, none, none⟩ : transform.Store Nat).Delete
        Example.apiContext Example.schema "a" 0 = Outcome.panics ∧
    (⟨Example.okStore, none, none, none⟩ : transform.Store Nat).Watch
        Example.apiContext Example.schema none 0 = Outcome.panics := by
  refine ⟨?_, rfl, rfl⟩
  intro h
  cases h

/-- C3, amended: with no transformer configured, `ByID`, `List` (in either mode, under any
schedule), `Create` and `Update` return the item or collection of the inner store as it is
(nil and empty included) when the inner call gives no error, and a nil value with the
inner error when it gives one; `Delete` returns the raw pair of the inner store when that
carries an error or no item; `Watch` returns a nil channel with the inner error when the
inner call gives one, and a channel that closes without an event when the source does. -/
theorem no_transformer_pass_through (s : transform.Store σ) (hT : s.Transformer = none)
    (hL : s.ListTransformer = none) (hS : s.StreamTransformer = none)
    (ac : APIContext) (sc : Schema) (w : σ) :
    (∀ id data w1, s.Store.ByID ac sc id w = ((data, none), w1) →
      s.ByID ac sc id w = Outcome.returns (data, none) w1) ∧
    (∀ id raw err w1, s.Store.ByID ac sc id w = ((raw, some err), w1) →
      s.ByID ac sc id w = Outcome.returns (none, some err) w1) ∧
    (∀ o sched data w1, s.Store.List ac sc o w = ((data, none), w1) →
      s.List ac sc o sched w = some (Outcome.returns (data, none) w1)) ∧
    (∀ o sched raw err w1, s.Store.List ac sc o w = ((raw, some err), w1) →
      s.List ac sc o sched w = some (Outcome.returns (none, some err) w1)) ∧
    (∀ data data1 w1, s.Store.Create ac sc data w = ((data1, none), w1) →
      s.Create ac sc data w = Outcome.returns (data1, none) w1) ∧
    (∀ data raw err w1, s.Store.Create ac sc data w = ((raw, some err), w1) →
      s.Create ac sc data w = Outcome.returns (none, some err) w1) ∧
    (∀ data id data1 w1, s.Store.Update ac sc data id w = ((data1, none), w1) →
      s.Update ac sc data id w = Outcome.returns (data1, none) w1) ∧
    (∀ data id raw err w1, s.Store.Update ac sc data id w = ((raw, some err), w1) →
      s.Update ac sc data id w = Outcome.returns (none, some err) w1) ∧
    (∀ id w1, s.Store.Delete ac sc id w = ((none, none), w1) →
      s.Delete ac sc id w = Outcome.returns (none, none) w1) ∧
    (∀ id raw err w1, s.Store.Delete ac sc id w = ((raw, some err), w1) →
      s.Delete ac sc id w = Outcome.returns (raw, some err) w1) ∧
    (∀ o raw err w1, s.Store.Watch ac sc o w = ((raw, some err), w1) →
      s.Watch ac sc o w = Outcome.returns (none, some err) w1) ∧
    (∀ o w1, s.Store.Watch ac sc o w = ((some [], none), w1) →
      s.Watch ac sc o w = Outcome.returns (some [], none) w1) := by
  refine ⟨?_, ?_, ?_, ?_, ?_, ?_, ?_, ?_, ?_, ?_, ?_, ?_⟩
  · intro id data w1 h
    simp only [Store.ByID, h, hT]
  · intro id raw err w1 h
    simp only [Store.ByID, h]
  · intro o sched data w1 h
    cases hP : ac.NeedPower <;> simp [Store.List, Store.powerList, hP, h, hT, hL]
  · intro o sched raw err w1 h
    cases hP : ac.NeedPower <;> simp [Store.List, Store.powerList, hP, h]
  · intro data data1 w1 h
    simp only [Store.Create, h, hT]
  · intro data raw err w1 h
    simp only [Store.Create, h]
  · intro data id data1 w1 h
    simp only [Store.Update, h, hT]
  · intro data id raw err w1 h
    simp only [Store.Update, h]
  · intro id w1 h
    simp only [Store.Delete, h]
  · intro id raw err w1 h
    simp only [Store.Delete, h]
  · intro o raw err w1 h
    simp only [Store.Watch, h]
  · intro o w1 h
    simp only [Store.Watch, h, hS, convert.Chan, convert.relay]

theorem no_transformer_pass_through_witness :
    (⟨Example.emptyStore, none, none, none⟩ : transform.Store Nat).ByID
        Example.apiContext Example.schema "a" 0 = Outcome.returns (none, none) 0 ∧
    (⟨Example.emptyStore, none, none, none⟩ : transform.Store Nat).List
        Example.powerContext Example.schema none [] 0 =
      some (Outcome.returns (some [], none) 0) ∧
    (⟨Example.okStore, none, none, none⟩ : transform.Store Nat).List
        Example.apiContext Example.schema none [] 0 =
      some (Outcome.returns (some Example.abc, none) 0) ∧
    (⟨Example.emptyStore, none, none, none⟩ : transform.Store Nat).Delete
        Example.apiContext Example.schema "a" 0 = Outcome.returns (none, none) 0 :=
  ⟨(no_transformer_pass_through (⟨Example.emptyStore, none, none, none⟩ :
      transform.Store Nat) rfl rfl rfl Example.apiContext Example.schema 0).1 "a" none 0 rfl,
   (no_transformer_pass_through (⟨Example.emptyStore, none, none, none⟩ :
      transform.Store Nat) rfl rfl rfl Example.powerContext Example.schema 0).2.2.1
      none [] (some []) 0 rfl,
   (no_transformer_pass_through (⟨Example.okStore, none, none, none⟩ :
      transform.Store Nat) rfl rfl rfl Example.apiContext Example.schema 0).2.2.1
      none [] (some Example.abc) 0 rfl,
   (no_transformer_pass_through (⟨Example.emptyStore, none, none, none⟩ :
      transform.Store Nat) rfl rfl rfl Example.apiContext Example.schema 0).2.2.2.2.2.2.2.2.1
      "a" 0 rfl⟩

end Sequential


/-! ### Power mode -/

section Power

variable {σ : Type}

theorem getElem?_split {α : Type} (l : List α) (i : Nat) (x : α) (h : l[i]? = some x) :
    ∃ pre post, l = pre ++ x :: post ∧ pre.length = i ∧ ∀ y, l.set i y = pre ++ y :: post := by
  induction l generalizing i with
  | nil => simp at h
  | cons a l ih =>
    cases i with
    | zero =>
      simp only [List.getElem?_cons_zero, Option.some.injEq] at h
      subst h
      exact ⟨[], l, rfl, rfl, fun y => rfl⟩
    | succ i =>
      simp only [List.getElem?_cons_succ] at h
      obtain ⟨pre, post, h1, h2, h3⟩ := ih i h
      refine ⟨a :: pre, post, by simp [h1], by simp [h2], fun y => ?_⟩
      simp [h3 y]

/-- The steps of the caller: a start of the next goroutine, or the return. -/
theorem stepMain_some (c c1 : Config σ) (h : stepMain c = some c1) :
    c.ret = none ∧
    ((∃ item rest, c.rest = item :: rest ∧
        c1 = { c with rest := rest, units := c.units ++ [Goroutine.ready item] }) ∨
     (c.rest = [] ∧ (∀ u ∈ c.units, u.isDone = true) ∧
        c1 = { c with egCtxDone := true,
                      ret := some (match c.egErr with
                        | some err => (none, some err)
                        | none => (c.result, none)) })) := by
  unfold stepMain at h
  cases hret : c.ret with
  | some r => simp [hret] at h
  | none =>
    refine ⟨rfl, ?_⟩
    simp only [hret] at h
    cases hrest : c.rest with
    | cons item rest =>
      simp only [hrest, Option.some.injEq] at h
      exact Or.inl ⟨item, rest, rfl, h.symm⟩
    | nil =>
      simp only [hrest] at h
      by_cases hall : c.units.all Goroutine.isDone = true
      · simp only [hall, if_true] at h
        refine Or.inr ⟨rfl, by simpa using hall, ?_⟩
        cases herr : c.egErr with
        | none => simp only [herr, Option.some.injEq] at h; exact h.symm
        | some err => simp only [herr, Option.some.injEq] at h; exact h.symm
      · simp [hall] at h

/-- The steps of a goroutine, with the goroutines before and after it in the list. -/
theorem stepUnit_some (t : TransformerFunc σ) (ac : APIContext) (sc : Schema)
    (o : Option QueryOptions) (i : Nat) (c c1 : Config σ)
    (h : stepUnit t ac sc o i c = some c1) :
    ∃ pre post u, c.units = pre ++ u :: post ∧ pre.length = i ∧
      ((∃ item, u = Goroutine.ready item ∧
          c1 = { c with
            world := (t { ac with ctxErr := c.ctxErr } sc item o c.world).2,
            units := pre ++ Goroutine.afterCall
              (t { ac with ctxErr := c.ctxErr } sc item o c.world).1 :: post,
            calls := c.calls ++
              [(item, (t { ac with ctxErr := c.ctxErr } sc item o c.world).1)] }) ∨
       (∃ val, u = Goroutine.wantLock val ∧ c.m = false ∧
          c1 = { c with m := true, units := pre ++ Goroutine.holding val :: post }) ∨
       (∃ val, u = Goroutine.holding val ∧
          c1 = { c with units := pre ++ Goroutine.appending val c.result :: post }) ∨
       (∃ val old, u = Goroutine.appending val old ∧
          c1 = { c with result := old.append (some val),
                        units := pre ++ Goroutine.written :: post }) ∨
       (u = Goroutine.written ∧
          c1 = { c with m := false, units := pre ++ Goroutine.returning none :: post }) ∨
       (∃ err, u = Goroutine.returning err ∧
          c1 = { c with egErr := (match c.egErr with | some first => some first | none => err),
                        egCtxDone := c.egCtxDone || err.isSome,
                        units := pre ++ Goroutine.done err :: post })) := by
  unfold stepUnit at h
  cases hu : c.units[i]? with
  | none => simp [hu] at h
  | some u =>
    obtain ⟨pre, post, hsplit, hlen, hset⟩ := getElem?_split _ _ _ hu
    refine ⟨pre, post, u, hsplit, hlen, ?_⟩
    simp only [hu, hset] at h
    cases u with
    | ready item =>
      simp only [Option.some.injEq] at h
      exact Or.inl ⟨item, rfl, h.symm⟩
    | wantLock val =>
      cases hm : c.m with
      | true => simp [hm] at h
      | false =>
        simp only [hm, Bool.false_eq_true, if_false, Option.some.injEq] at h
        exact Or.inr (Or.inl ⟨val, rfl, rfl, h.symm⟩)
    | holding val =>
      simp only [Option.some.injEq] at h
      exact Or.inr (Or.inr (Or.inl ⟨val, rfl, h.symm⟩))
    | appending val old =>
      simp only [Option.some.injEq] at h
      exact Or.inr (Or.inr (Or.inr (Or.inl ⟨val, old, rfl, h.symm⟩)))
    | written =>
      simp only [Option.some.injEq] at h
      exact Or.inr (Or.inr (Or.inr (Or.inr (Or.inl ⟨rfl, h.symm⟩))))
    | returning err =>
      simp only [Option.some.injEq] at h
      exact Or.inr (Or.inr (Or.inr (Or.inr (Or.inr ⟨err, rfl, h.symm⟩))))
    | done err => simp at h

/-- The step of the environment: the request was live and is cancelled now. -/
theorem stepCancel_some (err : Error) (c c1 : Config σ) (h : stepCancel err c = some c1) :
    c.ctxErr = none ∧ c1 = { c with ctxErr := some err, egCtxDone := true } := by
  unfold stepCancel at h
  cases hctx : c.ctxErr with
  | some e => simp [hctx] at h
  | none =>
    simp only [hctx, Option.some.injEq] at h
    exact ⟨rfl, h.symm⟩

theorem Sound_init (ac : APIContext) (data : List Data) (w : σ) :
    (Config.init ac data w).Sound data.length where
  lock := rfl
  fresh := by intro val old h; simp [Config.init] at h
  started := by simp [Config.init]
  returned := by intro r h; simp [Config.init] at h

theorem Config.Sound.ret_none {n : Nat} {c : Config σ} (hs : c.Sound n) (u : Goroutine)
    (hu : u ∈ c.units) (hd : u.isDone = false) : c.ret = none := by
  cases hret : c.ret with
  | none => rfl
  | some r =>
    have h := (hs.returned r hret).2.1 u hu
    rw [hd] at h
    cases h

theorem Sound_stepMain (n : Nat) (c c1 : Config σ) (hs : c.Sound n)
    (h : stepMain c = some c1) : c1.Sound n := by
  obtain ⟨hret, h | h⟩ := stepMain_some c c1 h
  · obtain ⟨item, rest, hrest, rfl⟩ := h
    refine ⟨?_, ?_, ?_, ?_⟩
    · simpa [List.countP_append, Goroutine.inCS] using hs.lock
    · intro val old hmem
      simp only [List.mem_append, List.mem_singleton] at hmem
      rcases hmem with hmem | hmem
      · exact hs.fresh val old hmem
      · cases hmem
    · have := hs.started
      simp only [hrest, List.length_cons] at this
      simp only [List.length_append, List.length_singleton]
      omega
    · intro r hr
      simp only [hret] at hr
      cases hr
  · obtain ⟨hrest, hdone, rfl⟩ := h
    refine ⟨hs.lock, hs.fresh, hs.started, ?_⟩
    intro r hr
    simp only [Option.some.injEq] at hr
    exact ⟨hrest, hdone, hr.symm⟩

theorem Sound_stepUnit (t : TransformerFunc σ) (ac : APIContext) (sc : Schema)
    (o : Option QueryOptions) (n i : Nat) (c c1 : Config σ) (hs : c.Sound n)
    (h : stepUnit t ac sc o i c = some c1) : c1.Sound n := by
  obtain ⟨pre, post, u, hsplit, -, hcase⟩ := stepUnit_some t ac sc o i c c1 h
  have hlock := hs.lock
  have hfresh := hs.fresh
  have hstarted := hs.started
  have hmem : u ∈ c.units := by simp [hsplit]
  simp only [hsplit, List.countP_append, List.countP_cons, List.length_append,
    List.length_cons, List.mem_append, List.mem_cons] at hlock hfresh hstarted
  rcases hcase with ⟨item, rfl, rfl⟩ | ⟨val, rfl, hm, rfl⟩ | ⟨val, rfl, rfl⟩ |
    ⟨val, old, rfl, rfl⟩ | ⟨rfl, rfl⟩ | ⟨err, rfl, rfl⟩
  · have hret := hs.ret_none _ hmem rfl
    generalize (t { ac with ctxErr := c.ctxErr } sc item o c.world).1 = res
    have hcs : (Goroutine.afterCall res).inCS = false := by
      rcases res with ⟨_ | v, _ | e⟩ <;> rfl
    have hne : ∀ val old, Goroutine.afterCall res ≠ Goroutine.appending val old := by
      intro val old
      rcases res with ⟨_ | v, _ | e⟩ <;> simp [Goroutine.afterCall]
    refine ⟨?_, ?_, ?_, ?_⟩
    · have h1 : (Goroutine.ready item).inCS = false := rfl
      simpa [List.countP_append, List.countP_cons, hcs, h1] using hlock
    · intro val old hm
      simp only [List.mem_append, List.mem_cons] at hm
      rcases hm with hm | hm | hm
      · exact hfresh val old (Or.inl hm)
      · exact absurd hm.symm (hne val old)
      · exact hfresh val old (Or.inr (Or.inr hm))
    · simpa using hstarted
    · intro r hr
      simp only [hret] at hr
      cases hr
  · have hret := hs.ret_none _ hmem rfl
    refine ⟨?_, ?_, ?_, ?_⟩
    · simp only [hm, Bool.false_eq_true, if_false, Goroutine.inCS] at hlock
      simp [List.countP_append, List.countP_cons, Goroutine.inCS]
      omega
    · intro val1 old hm1
      simp only [List.mem_append, List.mem_cons] at hm1
      rcases hm1 with hm1 | hm1 | hm1
      · exact hfresh val1 old (Or.inl hm1)
      · cases hm1
      · exact hfresh val1 old (Or.inr (Or.inr hm1))
    · simpa using hstarted
    · intro r hr
      simp only [hret] at hr
      cases hr
  · have hret := hs.ret_none _ hmem rfl
    refine ⟨?_, ?_, ?_, ?_⟩
    · simpa [List.countP_append, List.countP_cons, Goroutine.inCS] using hlock
    · intro val1 old hm1
      simp only [List.mem_append, List.mem_cons] at hm1
      rcases hm1 with hm1 | hm1 | hm1
      · exact hfresh val1 old (Or.inl hm1)
      · cases hm1; rfl
      · exact hfresh val1 old (Or.inr (Or.inr hm1))
    · simpa using hstarted
    · intro r hr
      simp only [hret] at hr
      cases hr
  · have hret := hs.ret_none _ hmem rfl
    have hzero : pre.countP Goroutine.inCS = 0 ∧ post.countP Goroutine.inCS = 0 := by
      simp only [Goroutine.inCS, if_true] at hlock
      cases hmm : c.m <;> simp only [hmm, Bool.false_eq_true, if_false, if_true] at hlock <;> omega
    refine ⟨?_, ?_, ?_, ?_⟩
    · simpa [List.countP_append, List.countP_cons, Goroutine.inCS] using hlock
    · intro val1 old1 hm1
      simp only [List.mem_append, List.mem_cons] at hm1
      rcases hm1 with hm1 | hm1 | hm1
      · exact absurd rfl ((List.countP_eq_zero.mp hzero.1) _ hm1)
      · cases hm1
      · exact absurd rfl ((List.countP_eq_zero.mp hzero.2) _ hm1)
    · simpa using hstarted
    · intro r hr
      simp only [hret] at hr
      cases hr
  · have hret := hs.ret_none _ hmem rfl
    have hzero : pre.countP Goroutine.inCS = 0 ∧ post.countP Goroutine.inCS = 0 := by
      simp only [Goroutine.inCS, if_true] at hlock
      cases hmm : c.m <;> simp only [hmm, Bool.false_eq_true, if_false, if_true] at hlock <;> omega
    refine ⟨?_, ?_, ?_, ?_⟩
    · simp [List.countP_append, List.countP_cons, Goroutine.inCS, hzero.1, hzero.2]
    · intro val1 old1 hm1
      simp only [List.mem_append, List.mem_cons] at hm1
      rcases hm1 with hm1 | hm1 | hm1
      · exact hfresh val1 old1 (Or.inl hm1)
      · cases hm1
      · exact hfresh val1 old1 (Or.inr (Or.inr hm1))
    · simpa using hstarted
    · intro r hr
      simp only [hret] at hr
      cases hr
  · have hret := hs.ret_none _ hmem rfl
    refine ⟨?_, ?_, ?_, ?_⟩
    · simpa [List.countP_append, List.countP_cons, Goroutine.inCS] using hlock
    · intro val1 old1 hm1
      simp only [List.mem_append, List.mem_cons] at hm1
      rcases hm1 with hm1 | hm1 | hm1
      · exact hfresh val1 old1 (Or.inl hm1)
      · cases hm1
      · exact hfresh val1 old1 (Or.inr (Or.inr hm1))
    · simpa using hstarted
    · intro r hr
      simp only [hret] at hr
      cases hr

theorem Sound_step (t : TransformerFunc σ) (ac : APIContext) (sc : Schema)
    (o : Option QueryOptions) (n : Nat) (mv : Move) (c c1 : Config σ) (hs : c.Sound n)
    (h : step t ac sc o mv c = some c1) : c1.Sound n := by
  cases mv with
  | caller => exact Sound_stepMain n c c1 hs h
  | unit i => exact Sound_stepUnit t ac sc o n i c c1 hs h
  | cancel err =>
    obtain ⟨-, rfl⟩ := stepCancel_some err c c1 h
    exact ⟨hs.lock, hs.fresh, hs.started, hs.returned⟩

theorem Sound_run (t : TransformerFunc σ) (ac : APIContext) (sc : Schema)
    (o : Option QueryOptions) (n : Nat) (sched : Schedule) (c c1 : Config σ) (hs : c.Sound n)
    (h : run t ac sc o sched c = some c1) : c1.Sound n := by
  induction sched generalizing c with
  | nil =>
    simp only [run, Option.some.injEq] at h
    exact h ▸ hs
  | cons mv sched ih =>
    simp only [run] at h
    cases hstep : step t ac sc o mv c with
    | none => simp [hstep] at h
    | some c2 =>
      simp only [hstep] at h
      exact ih c2 (Sound_step t ac sc o n mv c c2 hs hstep) h

theorem run_append (t : TransformerFunc σ) (ac : APIContext) (sc : Schema)
    (o : Option QueryOptions) (s1 s2 : Schedule) (c c1 : Config σ)
    (h : run t ac sc o s1 c = some c1) :
    run t ac sc o (s1 ++ s2) c = run t ac sc o s2 c1 := by
  induction s1 generalizing c with
  | nil =>
    simp only [run, Option.some.injEq] at h
    simp [h]
  | cons mv s1 ih =>
    simp only [run] at h
    cases hstep : step t ac sc o mv c with
    | none => simp [hstep] at h
    | some c2 =>
      simp only [hstep] at h
      simp only [List.cons_append, run, hstep]
      exact ih c2 h

theorem afterCall_weight (r : Data × Option Error) : (Goroutine.afterCall r).weight ≤ 5 := by
  rcases r with ⟨_ | v, _ | e⟩ <;> simp [Goroutine.afterCall, Goroutine.weight]

/-- Every step uses up some of the measure. -/
theorem measure_step (t : TransformerFunc σ) (ac : APIContext) (sc : Schema)
    (o : Option QueryOptions) (mv : Move) (c c1 : Config σ)
    (h : step t ac sc o mv c = some c1) : c1.measure < c.measure := by
  cases mv with
  | caller =>
    obtain ⟨hret, h | h⟩ := stepMain_some c c1 h
    · obtain ⟨item, rest, hrest, rfl⟩ := h
      simp only [Config.measure, hret, hrest, List.map_append, List.sum_append, List.map_cons,
        List.map_nil, List.sum_cons, List.sum_nil, List.length_cons, Goroutine.weight]
      omega
    · obtain ⟨-, -, rfl⟩ := h
      simp only [Config.measure, hret, Option.isSome_some, Option.isSome_none, if_true]
      simp
  | unit i =>
    obtain ⟨pre, post, u, hsplit, -, hcase⟩ := stepUnit_some t ac sc o i c c1 h
    rcases hcase with ⟨item, rfl, rfl⟩ | ⟨val, rfl, hm, rfl⟩ | ⟨val, rfl, rfl⟩ |
      ⟨val, old, rfl, rfl⟩ | ⟨rfl, rfl⟩ | ⟨err, rfl, rfl⟩
    · have := afterCall_weight (t { ac with ctxErr := c.ctxErr } sc item o c.world).1
      have hw : (Goroutine.ready item).weight = 6 := rfl
      simp only [Config.measure, hsplit, List.map_append, List.sum_append, List.map_cons,
        List.sum_cons, hw]
      omega
    all_goals
      simp only [Config.measure, hsplit, List.map_append, List.sum_append, List.map_cons,
        List.sum_cons, Goroutine.weight]
      omega
  | cancel err =>
    obtain ⟨hctx, rfl⟩ := stepCancel_some err c c1 h
    simp only [Config.measure, hctx, Option.isSome_some, Option.isSome_none, if_true]
    simp

theorem measure_run (t : TransformerFunc σ) (ac : APIContext) (sc : Schema)
    (o : Option QueryOptions) (sched : Schedule) (c c1 : Config σ)
    (h : run t ac sc o sched c = some c1) : sched.length + c1.measure ≤ c.measure := by
  induction sched generalizing c with
  | nil =>
    simp only [run, Option.some.injEq] at h
    simp [h]
  | cons mv sched ih =>
    simp only [run] at h
    cases hstep : step t ac sc o mv c with
    | none => simp [hstep] at h
    | some c2 =>
      simp only [hstep] at h
      have h1 := ih c2 h
      have h2 := measure_step t ac sc o mv c c2 hstep
      simp only [List.length_cons]
      omega

theorem stepUnit_enabled (t : TransformerFunc σ) (ac : APIContext) (sc : Schema)
    (o : Option QueryOptions) (i : Nat) (c : Config σ) (u : Goroutine)
    (hu : c.units[i]? = some u) (hd : u.isDone = false)
    (hm : c.m = false ∨ u.inCS = true) :
    ∃ c1, stepUnit t ac sc o i c = some c1 := by
  unfold stepUnit
  simp only [hu]
  cases u with
  | ready item => exact ⟨_, rfl⟩
  | wantLock val =>
    rcases hm with hm | hm
    · simp [hm]
    · cases hm
  | holding val => exact ⟨_, rfl⟩
  | appending val old => exact ⟨_, rfl⟩
  | written => exact ⟨_, rfl⟩
  | returning err => exact ⟨_, rfl⟩
  | done err => cases hd

/-- No deadlock: as long as `powerList` has not returned, the caller or a goroutine can
move. -/
theorem progress (t : TransformerFunc σ) (ac : APIContext) (sc : Schema)
    (o : Option QueryOptions) (n : Nat) (c : Config σ) (hs : c.Sound n) (hret : c.ret = none) :
    ∃ mv c1, (∀ err, mv ≠ Move.cancel err) ∧ step t ac sc o mv c = some c1 := by
  have hc : ∀ err, Move.caller ≠ Move.cancel err := fun err h => by cases h
  have hunit : ∀ i err, Move.unit i ≠ Move.cancel err := fun i err h => by cases h
  cases hrest : c.rest with
  | cons item rest =>
    refine ⟨Move.caller, ?_⟩
    simp only [step, stepMain, hret, hrest]
    exact ⟨_, hc, rfl⟩
  | nil =>
    by_cases hall : c.units.all Goroutine.isDone = true
    · refine ⟨Move.caller, ?_⟩
      simp only [step, stepMain, hret, hrest, hall, if_true]
      cases c.egErr <;> exact ⟨_, hc, rfl⟩
    · cases hm : c.m with
      | false =>
        simp only [List.all_eq_true, not_forall] at hall
        obtain ⟨u, hu, hd⟩ := hall
        obtain ⟨i, hi⟩ := List.getElem?_of_mem hu
        obtain ⟨c1, h1⟩ := stepUnit_enabled t ac sc o i c u hi (by simpa using hd) (Or.inl hm)
        exact ⟨Move.unit i, c1, hunit i, h1⟩
      | true =>
        have hl := hs.lock
        simp only [hm, if_true] at hl
        have hpos : 0 < c.units.countP Goroutine.inCS := by omega
        obtain ⟨u, hu, hcs⟩ := List.countP_pos_iff.mp hpos
        obtain ⟨i, hi⟩ := List.getElem?_of_mem hu
        have hd : u.isDone = false := by cases u <;> first | rfl | cases hcs
        obtain ⟨c1, h1⟩ := stepUnit_enabled t ac sc o i c u hi hd (Or.inr hcs)
        exact ⟨Move.unit i, c1, hunit i, h1⟩

/-- Every run can be carried on, by moves of the caller and the goroutines alone, until
`powerList` returns. -/
theorem completes (t : TransformerFunc σ) (ac : APIContext) (sc : Schema)
    (o : Option QueryOptions) (n : Nat) (c : Config σ) (hs : c.Sound n) :
    ∃ sched c1, (∀ err, Move.cancel err ∉ sched) ∧ run t ac sc o sched c = some c1 ∧
      ∃ r, c1.ret = some r := by
  obtain ⟨k, hk⟩ : ∃ k, c.measure = k := ⟨_, rfl⟩
  induction k using Nat.strong_induction_on generalizing c with
  | _ k ih =>
    cases hret : c.ret with
    | some r => exact ⟨[], c, by simp, rfl, r, hret⟩
    | none =>
      obtain ⟨mv, c1, hmv, hstep⟩ := progress t ac sc o n c hs hret
      have hlt := measure_step t ac sc o mv c c1 hstep
      obtain ⟨sched, c2, hno, hrun, hr⟩ :=
        ih c1.measure (hk ▸ hlt) c1 (Sound_step t ac sc o n mv c c1 hs hstep) rfl
      refine ⟨mv :: sched, c2, ?_, by simp only [run, hstep, hrun], hr⟩
      intro err hmem
      simp only [List.mem_cons] at hmem
      rcases hmem with hmem | hmem
      · exact hmv err hmem.symm
      · exact hno err hmem

theorem filterMap_cons_toList {α β : Type} (g : α → Option β) (a : α) (l : List α) :
    (a :: l).filterMap g = (g a).toList ++ l.filterMap g := by
  cases h : g a <;> simp [List.filterMap_cons, h]

theorem owed_afterCall (res : Data × Option Error) :
    (Goroutine.afterCall res).owed = (kept res).toList := by
  rcases res with ⟨_ | v, _ | e⟩ <;> rfl

theorem waiting_afterCall (res : Data × Option Error) :
    (Goroutine.afterCall res).waiting = [] := by
  rcases res with ⟨_ | v, _ | e⟩ <;> rfl

theorem failing_afterCall (res : Data × Option Error) :
    (Goroutine.afterCall res).failing = res.2.isSome := by
  rcases res with ⟨_ | v, _ | e⟩ <;> rfl

theorem afterCall_returning (res : Data × Option Error) (err : Error)
    (h : Goroutine.afterCall res = Goroutine.returning (some err)) : res.2 = some err := by
  rcases res with ⟨_ | v, _ | e⟩ <;> simp [Goroutine.afterCall] at h <;> simp [h]

theorem Logged_init (t : TransformerFunc σ) (ac : APIContext) (sc : Schema)
    (o : Option QueryOptions) (data : List Data) (w : σ) :
    (Config.init ac data w).Logged t ac sc o data where
  items := by simp [Config.init, Slice.items]
  inputs := by simp [Config.init]
  origin := by intro entry h; simp [Config.init] at h
  errFrom := by intro err h; simp [Config.init] at h
  unitsErr := by intro err h; simp [Config.init] at h
  errKept := by simp [Config.init]

theorem Logged_stepMain (t : TransformerFunc σ) (ac : APIContext) (sc : Schema)
    (o : Option QueryOptions) (data : List Data) (c c1 : Config σ)
    (ha : c.Logged t ac sc o data) (h : stepMain c = some c1) : c1.Logged t ac sc o data := by
  obtain ⟨-, h | h⟩ := stepMain_some c c1 h
  · obtain ⟨item, rest, hrest, rfl⟩ := h
    have hinputs := ha.inputs
    simp only [hrest] at hinputs
    refine ⟨?_, ?_, ha.origin, ha.errFrom, ?_, ?_⟩
    · simpa [List.flatMap_append, Goroutine.owed] using ha.items
    · simpa [List.flatMap_append, Goroutine.waiting] using hinputs
    · intro err hmem
      simp only [List.mem_append, List.mem_singleton] at hmem
      rcases hmem with hmem | hmem
      · exact ha.unitsErr err hmem
      · cases hmem
    · simpa [List.any_append, Goroutine.failing] using ha.errKept
  · obtain ⟨-, -, rfl⟩ := h
    exact ⟨ha.items, ha.inputs, ha.origin, ha.errFrom, ha.unitsErr, ha.errKept⟩

/-- A step of a goroutine that neither calls the transformer, nor touches `result` or the
group, keeps the record straight. -/
theorem Logged_swap (t : TransformerFunc σ) (ac : APIContext) (sc : Schema)
    (o : Option QueryOptions) (data : List Data) (c c1 : Config σ)
    (pre post : List Goroutine) (u u1 : Goroutine)
    (hsplit : c.units = pre ++ u :: post) (hunits : c1.units = pre ++ u1 :: post)
    (hres : c1.result = c.result) (hcalls : c1.calls = c.calls) (herr : c1.egErr = c.egErr)
    (hrest : c1.rest = c.rest) (ho : u1.owed = u.owed) (hw : u1.waiting = u.waiting)
    (hf : u1.failing = u.failing) (hne : ∀ err, u1 ≠ Goroutine.returning (some err))
    (ha : c.Logged t ac sc o data) : c1.Logged t ac sc o data := by
  have hitems := ha.items
  have hinputs := ha.inputs
  have hkept := ha.errKept
  have hunitsErr := ha.unitsErr
  simp only [hsplit, List.flatMap_append, List.flatMap_cons, List.any_append, List.any_cons,
    List.mem_append, List.mem_cons] at hitems hinputs hkept hunitsErr
  refine ⟨?_, ?_, ?_, ?_, ?_, ?_⟩
  · simpa only [hunits, hres, hcalls, List.flatMap_append, List.flatMap_cons, ho] using hitems
  · simpa only [hunits, hrest, hcalls, List.flatMap_append, List.flatMap_cons, hw] using hinputs
  · rw [hcalls]; exact ha.origin
  · rw [hcalls, herr]; exact ha.errFrom
  · intro err hmem
    rw [hcalls]
    simp only [hunits, List.mem_append, List.mem_cons] at hmem
    rcases hmem with hmem | hmem | hmem
    · exact hunitsErr err (Or.inl hmem)
    · exact absurd hmem.symm (hne err)
    · exact hunitsErr err (Or.inr (Or.inr hmem))
  · simpa only [hunits, herr, hcalls, List.any_append, List.any_cons, hf] using hkept

theorem Logged_stepUnit (t : TransformerFunc σ) (ac : APIContext) (sc : Schema)
    (o : Option QueryOptions) (data : List Data) (n i : Nat)
    (c c1 : Config σ) (hs : c.Sound n) (ha : c.Logged t ac sc o data)
    (h : stepUnit t ac sc o i c = some c1) : c1.Logged t ac sc o data := by
  obtain ⟨pre, post, u, hsplit, -, hcase⟩ := stepUnit_some t ac sc o i c c1 h
  have hitems := ha.items
  have hinputs := ha.inputs
  have hkept := ha.errKept
  have hunitsErr := ha.unitsErr
  have hfresh := hs.fresh
  simp only [hsplit, List.flatMap_append, List.flatMap_cons, List.any_append, List.any_cons,
    List.mem_append, List.mem_cons] at hitems hinputs hkept hunitsErr hfresh
  rcases hcase with ⟨item, rfl, rfl⟩ | ⟨val, rfl, hm, rfl⟩ | ⟨val, rfl, rfl⟩ |
    ⟨val, old, rfl, rfl⟩ | ⟨rfl, rfl⟩ | ⟨err, rfl, rfl⟩
  · have hres : ∃ res, res = (t { ac with ctxErr := c.ctxErr } sc item o c.world).1 := ⟨_, rfl⟩
    obtain ⟨res, hres⟩ := hres
    rw [← hres]
    have h1 : (Goroutine.ready item).owed = [] := rfl
    have h2 : (Goroutine.ready item).waiting = [item] := rfl
    have h3 : (Goroutine.ready item).failing = false := rfl
    simp only [h1, h2, h3] at hitems hinputs hkept
    refine ⟨?_, ?_, ?_, ?_, ?_, ?_⟩
    · simp only [List.flatMap_append, List.flatMap_cons, owed_afterCall, List.filterMap_append,
        filterMap_cons_toList, List.filterMap_nil, List.append_nil]
      rw [← Multiset.coe_eq_coe] at hitems ⊢
      simp only [← Multiset.coe_add, Multiset.coe_nil, zero_add] at hitems ⊢
      rw [← hitems]
      abel
    · simp only [List.flatMap_append, List.flatMap_cons, waiting_afterCall, List.map_append,
        List.map_cons, List.map_nil]
      rw [← Multiset.coe_eq_coe] at hinputs ⊢
      simp only [← Multiset.coe_add, Multiset.coe_nil, zero_add] at hinputs ⊢
      rw [← hinputs]
      abel
    · intro entry hmem
      simp only [List.mem_append, List.mem_singleton] at hmem
      rcases hmem with hmem | rfl
      · exact ha.origin entry hmem
      · exact ⟨c.ctxErr, c.world, hres⟩
    · intro err herr
      obtain ⟨entry, hentry, he⟩ := ha.errFrom err herr
      exact ⟨entry, by simp [hentry], he⟩
    · intro err hmem
      simp only [List.mem_append, List.mem_cons] at hmem
      rcases hmem with hmem | hmem | hmem
      · obtain ⟨entry, hentry, he⟩ := hunitsErr err (Or.inl hmem)
        exact ⟨entry, by simp [hentry], he⟩
      · exact ⟨(item, res), by simp, afterCall_returning res err hmem.symm⟩
      · obtain ⟨entry, hentry, he⟩ := hunitsErr err (Or.inr (Or.inr hmem))
        exact ⟨entry, by simp [hentry], he⟩
    · simp only [List.any_append, List.any_cons, List.any_nil, failing_afterCall, Bool.or_false]
      rw [← hkept]
      generalize c.egErr.isSome = b1
      generalize List.any pre _ = b2
      generalize List.any post _ = b3
      generalize res.2.isSome = b4
      cases b1 <;> cases b2 <;> cases b3 <;> cases b4 <;> rfl
  · exact Logged_swap t ac sc o data c _ pre post _ _ hsplit rfl rfl rfl rfl rfl rfl rfl rfl
      (fun err h => by cases h) ha
  · exact Logged_swap t ac sc o data c _ pre post _ _ hsplit rfl rfl rfl rfl rfl rfl rfl rfl
      (fun err h => by cases h) ha
  · have hold : old = c.result := hfresh val old (Or.inr (Or.inl rfl))
    subst hold
    have h1 : (Goroutine.appending val c.result).owed = [some val] := rfl
    have h2 : (Goroutine.appending val c.result).failing = false := rfl
    simp only [h1, h2] at hitems hkept
    refine ⟨?_, ?_, ha.origin, ha.errFrom, ?_, ?_⟩
    · refine List.Perm.trans ?_ hitems
      simp only [List.flatMap_append, List.flatMap_cons, Goroutine.owed, Slice_items_append]
      rw [← Multiset.coe_eq_coe]
      simp only [← Multiset.coe_add]
      abel
    · simpa only [List.flatMap_append, List.flatMap_cons, Goroutine.waiting] using hinputs
    · intro err hmem
      simp only [List.mem_append, List.mem_cons] at hmem
      rcases hmem with hmem | hmem | hmem
      · exact hunitsErr err (Or.inl hmem)
      · cases hmem
      · exact hunitsErr err (Or.inr (Or.inr hmem))
    · simpa only [List.any_append, List.any_cons, Goroutine.failing] using hkept
  · exact Logged_swap t ac sc o data c _ pre post _ _ hsplit rfl rfl rfl rfl rfl rfl rfl rfl
      (fun err h => by cases h) ha
  · refine ⟨?_, ?_, ha.origin, ?_, ?_, ?_⟩
    · simpa only [List.flatMap_append, List.flatMap_cons, Goroutine.owed] using hitems
    · simpa only [List.flatMap_append, List.flatMap_cons, Goroutine.waiting] using hinputs
    · intro e he
      cases hegErr : c.egErr with
      | some first =>
        simp only [hegErr, Option.some.injEq] at he
        subst he
        exact ha.errFrom first hegErr
      | none =>
        simp only [hegErr] at he
        subst he
        exact hunitsErr e (Or.inr (Or.inl rfl))
    · intro e hmem
      simp only [List.mem_append, List.mem_cons] at hmem
      rcases hmem with hmem | hmem | hmem
      · exact hunitsErr e (Or.inl hmem)
      · cases hmem
      · exact hunitsErr e (Or.inr (Or.inr hmem))
    · rw [← hkept]
      simp only [List.any_append, List.any_cons]
      have h1 : (Goroutine.done err).failing = false := rfl
      have h2 : (Goroutine.returning err).failing = err.isSome := by cases err <;> rfl
      rw [h1, h2]
      generalize List.any pre _ = b4
      generalize List.any post _ = b5
      cases c.egErr <;> cases err <;> cases b4 <;> cases b5 <;> rfl

theorem Logged_step (t : TransformerFunc σ) (ac : APIContext) (sc : Schema)
    (o : Option QueryOptions) (data : List Data) (n : Nat) (mv : Move)
    (c c1 : Config σ) (hs : c.Sound n) (ha : c.Logged t ac sc o data)
    (h : step t ac sc o mv c = some c1) : c1.Logged t ac sc o data := by
  cases mv with
  | caller => exact Logged_stepMain t ac sc o data c c1 ha h
  | unit i => exact Logged_stepUnit t ac sc o data n i c c1 hs ha h
  | cancel err =>
    obtain ⟨-, rfl⟩ := stepCancel_some err c c1 h
    exact ⟨ha.items, ha.inputs, ha.origin, ha.errFrom, ha.unitsErr, ha.errKept⟩

theorem Logged_run (t : TransformerFunc σ) (ac : APIContext) (sc : Schema)
    (o : Option QueryOptions) (data : List Data) (n : Nat)
    (sched : Schedule) (c c1 : Config σ) (hs : c.Sound n) (ha : c.Logged t ac sc o data)
    (h : run t ac sc o sched c = some c1) : c1.Logged t ac sc o data := by
  induction sched generalizing c with
  | nil =>
    simp only [run, Option.some.injEq] at h
    exact h ▸ ha
  | cons mv sched ih =>
    simp only [run] at h
    cases hstep : step t ac sc o mv c with
    | none => simp [hstep] at h
    | some c2 =>
      simp only [hstep] at h
      exact ih c2 (Sound_step t ac sc o n mv c c2 hs hstep)
        (Logged_step t ac sc o data n mv c c2 hs ha hstep) h

theorem flatMap_owed_of_done (units : List Goroutine)
    (h : ∀ u ∈ units, u.isDone = true) : units.flatMap Goroutine.owed = [] := by
  induction units with
  | nil => rfl
  | cons u us ih =>
    have hu := h u (by simp)
    have hus := ih (fun x hx => h x (by simp [hx]))
    cases u <;> first | (simp [List.flatMap_cons, Goroutine.owed, hus]; done) | cases hu

theorem flatMap_waiting_of_done (units : List Goroutine)
    (h : ∀ u ∈ units, u.isDone = true) : units.flatMap Goroutine.waiting = [] := by
  induction units with
  | nil => rfl
  | cons u us ih =>
    have hu := h u (by simp)
    have hus := ih (fun x hx => h x (by simp [hx]))
    cases u <;> first | (simp [List.flatMap_cons, Goroutine.waiting, hus]; done) | cases hu

theorem any_failing_of_done (units : List Goroutine)
    (h : ∀ u ∈ units, u.isDone = true) : units.any Goroutine.failing = false := by
  induction units with
  | nil => rfl
  | cons u us ih =>
    have hu := h u (by simp)
    have hus := ih (fun x hx => h x (by simp [hx]))
    cases u <;> first | (simp [Goroutine.failing, hus]; done) | cases hu

/-- What `powerList` has returned, whatever the schedule and the transformer: every
goroutine was started and is done; every item of `data` was given to exactly one
transformer call; and the values returned are a nil slice with an error that one of these
calls gave, or, when none of the calls gave an error, the items these calls gave and that
a list keeps, in some order. -/
theorem run_returned (t : TransformerFunc σ) (ac : APIContext) (sc : Schema)
    (o : Option QueryOptions) (data : List Data) (w1 : σ)
    (sched : Schedule) (c : Config σ) (r : Slice × Option Error)
    (hrun : run t ac sc o sched (Config.init ac data w1) = some c) (hret : c.ret = some r) :
    c.units.length = data.length ∧ (∀ u ∈ c.units, u.isDone = true) ∧
    (c.calls.map Prod.fst).Perm data ∧
    (∀ entry ∈ c.calls, ∃ e w, entry.2 = (t { ac with ctxErr := e } sc entry.1 o w).1) ∧
    ((∃ e, r = (none, some e) ∧ ∃ entry ∈ c.calls, entry.2.2 = some e) ∨
     (∃ res, r = (res, none) ∧
        res.items.Perm (c.calls.filterMap (fun entry => kept entry.2)) ∧
        ∀ entry ∈ c.calls, entry.2.2 = none)) := by
  have hs := Sound_run t ac sc o data.length sched _ c (Sound_init ac data w1) hrun
  have ha := Logged_run t ac sc o data data.length sched _ c (Sound_init ac data w1)
    (Logged_init t ac sc o data w1) hrun
  obtain ⟨hrest, hdone, hr⟩ := hs.returned r hret
  have hlen := hs.started
  simp only [hrest, List.length_nil, Nat.add_zero] at hlen
  have hinputs := ha.inputs
  simp only [hrest, flatMap_waiting_of_done c.units hdone, List.append_nil] at hinputs
  refine ⟨hlen, hdone, hinputs, ha.origin, ?_⟩
  cases hegErr : c.egErr with
  | some e =>
    simp only [hegErr] at hr
    exact Or.inl ⟨e, hr, ha.errFrom e hegErr⟩
  | none =>
    simp only [hegErr] at hr
    refine Or.inr ⟨c.result, hr, ?_, ?_⟩
    · have h1 := ha.items
      simpa [flatMap_owed_of_done c.units hdone] using h1
    · have h2 := ha.errKept
      simp only [hegErr, any_failing_of_done c.units hdone, Option.isSome_none,
        Bool.or_false] at h2
      intro entry hentry
      have h3 : entry.2.2.isSome = false := by
        have h4 := h2.symm
        rw [List.any_eq_false] at h4
        simpa using h4 entry hentry
      cases h5 : entry.2.2 with
      | none => rfl
      | some e => simp [h5] at h3

/-- The steps of `powerList` and of `List` in power mode up to the goroutines. -/
theorem List_power_eq (s : transform.Store σ) (t : TransformerFunc σ)
    (hL : s.ListTransformer = none) (hT : s.Transformer = some t)
    (ac : APIContext) (hP : ac.NeedPower = true) (sc : Schema) (o : Option QueryOptions)
    (w : σ) (data : Slice) (w1 : σ)
    (hinner : s.Store.List ac sc o w = ((data, none), w1)) (sched : Schedule) :
    s.List ac sc o sched w =
      match run t ac sc o sched (Config.init ac data.items w1) with
      | none => none
      | some c =>
        match c.ret with
        | none => none
        | some r => some (Outcome.returns r c.world) := by
  simp only [Store.List, hP, if_true, Store.powerList, hinner, hL, hT]

/-- Every run of the goroutines is finite and can be carried on to the return of `List`,
by moves of the caller and of the goroutines alone. -/
theorem List_power_completes (s : transform.Store σ) (t : TransformerFunc σ)
    (hL : s.ListTransformer = none) (hT : s.Transformer = some t)
    (ac : APIContext) (hP : ac.NeedPower = true) (sc : Schema) (o : Option QueryOptions)
    (w : σ) (data : Slice) (w1 : σ)
    (hinner : s.Store.List ac sc o w = ((data, none), w1)) (sched : Schedule) (c : Config σ)
    (hrun : run t ac sc o sched (Config.init ac data.items w1) = some c) :
    sched.length ≤ 7 * data.items.length + 2 ∧
      ∃ more out, (∀ err, Move.cancel err ∉ more) ∧
        s.List ac sc o (sched ++ more) w = some out := by
  constructor
  · have h := measure_run t ac sc o sched _ c hrun
    have h0 : (Config.init ac data.items w1).measure ≤ 7 * data.items.length + 2 := by
      simp only [Config.measure, Config.init, Option.isSome_none, List.map_nil, List.sum_nil]
      have h1 : (if ac.ctxErr.isSome = true then 0 else 1) ≤ 1 := by split <;> omega
      simp only [Bool.false_eq_true, if_false, Nat.add_zero]
      omega
    omega
  · have hs := Sound_run t ac sc o data.items.length sched _ c (Sound_init ac data.items w1) hrun
    obtain ⟨more, c1, hno, hmore, r, hr⟩ := completes t ac sc o data.items.length c hs
    refine ⟨more, Outcome.returns r c1.world, hno, ?_⟩
    rw [List_power_eq s t hL hT ac hP sc o w data w1 hinner,
      run_append t ac sc o sched more _ c hrun, hmore]
    simp only [hr]

/-- What `List` returns in power mode comes from a run that has returned. -/
theorem List_power_some (s : transform.Store σ) (t : TransformerFunc σ)
    (hL : s.ListTransformer = none) (hT : s.Transformer = some t)
    (ac : APIContext) (hP : ac.NeedPower = true) (sc : Schema) (o : Option QueryOptions)
    (w : σ) (data : Slice) (w1 : σ)
    (hinner : s.Store.List ac sc o w = ((data, none), w1)) (sched : Schedule)
    (out : Outcome σ (Slice × Option Error)) (h : s.List ac sc o sched w = some out) :
    ∃ c r, run t ac sc o sched (Config.init ac data.items w1) = some c ∧ c.ret = some r ∧
      out = Outcome.returns r c.world := by
  rw [List_power_eq s t hL hT ac hP sc o w data w1 hinner] at h
  cases hrun : run t ac sc o sched (Config.init ac data.items w1) with
  | none => simp [hrun] at h
  | some c =>
    simp only [hrun] at h
    cases hret : c.ret with
    | none => simp [hret] at h
    | some r =>
      simp only [hret, Option.some.injEq] at h
      exact ⟨c, r, rfl, hret, h.symm⟩

theorem transformAll_fst_of_pure (t : TransformerFunc σ) (ac : APIContext) (sc : Schema)
    (o : Option QueryOptions) (f : Data → Data × Option Error)
    (hf : ∀ item w, (t ac sc item o w).1 = f item) (items : List Data) (w : σ) :
    (transformAll t ac sc o items w).1 = items.map f := by
  induction items generalizing w with
  | nil => rfl
  | cons item rest ih => simp [transformAll, hf, ih]

theorem filterMap_eq_map_of {α β : Type} (f : α → Option β) (g : α → β) (l : List α)
    (h : ∀ x ∈ l, f x = some (g x)) : l.filterMap f = l.map g := by
  induction l with
  | nil => rfl
  | cons x xs ih =>
    have hx := h x (by simp)
    have hxs := ih (fun y hy => h y (by simp [hy]))
    simp [List.filterMap_cons, hx, hxs]

/-- C7, as stated, fails: the transformer `stamp` gives a non-nil item and no error at
every call, but the item depends on the calls made before.  For the collection `abc`
power-mode `List` returns, under the schedule `thirdFirst`, three items that are not a
permutation of the three items sequential `List` returns. -/
theorem powerList_concurrency_safety_counterexample :
    (⟨Example.okStore, some Example.stamp, none, none⟩ : transform.Store Nat).List
        Example.powerContext Example.schema none Example.thirdFirst 0 =
      some (Outcome.returns
        (some [some [("id", Value.str "c"), ("n", Value.num 0)],
               some [("id", Value.str "a"), ("n", Value.num 1)],
               some [("id", Value.str "b"), ("n", Value.num 2)]], none) 3) ∧
    (⟨Example.okStore, some Example.stamp, none, none⟩ : transform.Store Nat).List
        Example.apiContext Example.schema none [] 0 =
      some (Outcome.returns
        (some [some [("id", Value.str "a"), ("n", Value.num 0)],
               some [("id", Value.str "b"), ("n", Value.num 1)],
               some [("id", Value.str "c"), ("n", Value.num 2)]], none) 3) ∧
    ¬ List.Perm
        [(some [("id", Value.str "c"), ("n", Value.num 0)] : Data),
         some [("id", Value.str "a"), ("n", Value.num 1)],
         some [("id", Value.str "b"), ("n", Value.num 2)]]
        [some [("id", Value.str "a"), ("n", Value.num 0)],
         some [("id", Value.str "b"), ("n", Value.num 1)],
         some [("id", Value.str "c"), ("n", Value.num 2)]] := by
  refine ⟨rfl, rfl, ?_⟩
  intro h
  have hmem := h.subset (List.mem_cons_self _ _)
  simp at hmem

/-- C7, amended: power-mode `List` with no list transformer and a per-item transformer
whose every call gives a non-nil item and no error.  Every run of the goroutines is finite
and can be carried on to the return of `List`; under every schedule `List` returns no
error and exactly N items, with no duplicates or omissions: every item of the input was
given to exactly one transformer call and the collection returned is a permutation of the
items these N calls gave.  When the item the transformer gives does not depend on the
world or on the state of the request (it is `g item`), the collection is a permutation of
the transformed input, hence of what the sequential loop returns for the same input. -/
theorem powerList_concurrency_safety (s : transform.Store σ) (t : TransformerFunc σ)
    (hL : s.ListTransformer = none) (hT : s.Transformer = some t)
    (ac : APIContext) (hP : ac.NeedPower = true) (sc : Schema) (o : Option QueryOptions)
    (hsucc : ∀ e item w, ∃ val, (t { ac with ctxErr := e } sc item o w).1 = (some val, none))
    (w : σ) (data : Slice) (w1 : σ)
    (hinner : s.Store.List ac sc o w = ((data, none), w1)) :
    (∀ sched c, run t ac sc o sched (Config.init ac data.items w1) = some c →
      sched.length ≤ 7 * data.items.length + 2 ∧
        ∃ more out, (∀ err, Move.cancel err ∉ more) ∧
          s.List ac sc o (sched ++ more) w = some out) ∧
    (∀ sched out, s.List ac sc o sched w = some out →
      ∃ c r, run t ac sc o sched (Config.init ac data.items w1) = some c ∧
        out = Outcome.returns (r, none) c.world ∧
        r.items.length = data.items.length ∧
        (c.calls.map Prod.fst).Perm data.items ∧
        (∀ entry ∈ c.calls, ∃ e w,
          entry.2 = (t { ac with ctxErr := e } sc entry.1 o w).1) ∧
        r.items.Perm (c.calls.map (fun entry => entry.2.1)) ∧
        ∀ g : Data → Item,
          (∀ e item w, (t { ac with ctxErr := e } sc item o w).1 = (some (g item), none)) →
          r.items.Perm (data.items.map (fun item => some (g item))) ∧
          r.items.Perm (listLoop t ac sc o data.items none w1).1.1.items) := by
  refine ⟨fun sched c hrun =>
    List_power_completes s t hL hT ac hP sc o w data w1 hinner sched c hrun, ?_⟩
  intro sched out hout
  obtain ⟨c, r, hrun, hret, rfl⟩ :=
    List_power_some s t hL hT ac hP sc o w data w1 hinner sched out hout
  obtain ⟨-, -, hinputs, horigin, hcase⟩ :=
    run_returned t ac sc o data.items w1 sched c r hrun hret
  have hgood : ∀ entry ∈ c.calls, ∃ val, entry.2 = (some val, none) := by
    intro entry hentry
    obtain ⟨e, w0, he⟩ := horigin entry hentry
    obtain ⟨val, hval⟩ := hsucc e entry.1 w0
    exact ⟨val, he.trans hval⟩
  rcases hcase with ⟨e, -, entry, hentry, he⟩ | ⟨res, rfl, hperm, -⟩
  · obtain ⟨val, hval⟩ := hgood entry hentry
    rw [hval] at he
    cases he
  · have hmap : c.calls.filterMap (fun entry => kept entry.2) =
        c.calls.map (fun entry => entry.2.1) := by
      apply filterMap_eq_map_of
      intro entry hentry
      obtain ⟨val, hval⟩ := hgood entry hentry
      rw [hval]
      rfl
    rw [hmap] at hperm
    have hlen : res.items.length = data.items.length := by
      have h1 := hperm.length_eq
      have h2 := hinputs.length_eq
      simp only [List.length_map] at h1 h2
      omega
    refine ⟨c, res, hrun, rfl, hlen, hinputs, horigin, hperm, ?_⟩
    intro g hg
    have hcalls : c.calls.map (fun entry => entry.2.1) =
        (c.calls.map Prod.fst).map (fun item => some (g item)) := by
      rw [List.map_map]
      apply List.map_congr_left
      intro entry hentry
      obtain ⟨e, w0, he⟩ := horigin entry hentry
      rw [he, hg e entry.1 w0]
      rfl
    have hpermg : res.items.Perm (data.items.map (fun item => some (g item))) := by
      rw [hcalls] at hperm
      exact hperm.trans (hinputs.map _)
    refine ⟨hpermg, ?_⟩
    have hf : ∀ item w, (t ac sc item o w).1 = (some (g item), none) :=
      fun item w0 => hg ac.ctxErr item w0
    have hok : ∀ x ∈ (transformAll t ac sc o data.items w1).1, x.2 = none := by
      rw [transformAll_fst_of_pure t ac sc o _ hf]
      intro x hx
      simp only [List.mem_map] at hx
      obtain ⟨d, -, rfl⟩ := hx
      rfl
    obtain ⟨r0, h0, h1, -⟩ := listLoop_ok t ac sc o data.items none w1 hok
    have hnil : Slice.items none = [] := rfl
    rw [h0, h1, transformAll_fst_of_pure t ac sc o _ hf, List.filterMap_map, hnil,
      List.nil_append,
      filterMap_eq_map_of (kept ∘ fun item => (some (g item), none))
        (fun item => some (g item)) data.items (fun x _ => rfl)]
    exact hpermg

theorem powerList_concurrency_safety_witness :
    Example.powerContext.NeedPower = true ∧
    ∃ c r, run Example.stamp Example.powerContext Example.schema none Example.mixed
        (Config.init Example.powerContext Example.abc 0) = some c ∧
      (⟨Example.okStore, some Example.stamp, none, none⟩ : transform.Store Nat).List
        Example.powerContext Example.schema none Example.mixed 0 =
          some (Outcome.returns (r, none) c.world) ∧
      r.items.length = 3 ∧
      (c.calls.map Prod.fst).Perm Example.abc ∧
      r.items.Perm (c.calls.map (fun entry => entry.2.1)) := by
  refine ⟨rfl, ?_⟩
  obtain ⟨c, r, h1, h2, h3, h4, -, h6, -⟩ := (powerList_concurrency_safety
    (⟨Example.okStore, some Example.stamp, none, none⟩ : transform.Store Nat) Example.stamp
    rfl rfl Example.powerContext rfl Example.schema none
    (fun _ item w => ⟨item.getD [] ++ [("n", Value.num w)], rfl⟩)
    0 (some Example.abc) 0 rfl).2 Example.mixed _ rfl
  exact ⟨c, r, h1, congrArg some h2, h3, h4, h6⟩

/-- C8: power-mode `List` with no list transformer and a per-item transformer, whatever
it is.  Every run of the goroutines is finite and can be carried on to the return of
`List`.  Under every schedule, when `List` returns, all N goroutines were started and are
done and every item was given to exactly one transformer call; if one of these calls gave
an error, `List` returns a nil collection together with an error that one of these calls
gave, which is that very error when the failing calls gave no other.  In particular, when
the transformer gives an error for an item of the collection whatever the world, `List`
returns an error and a nil collection under every schedule. -/
theorem powerList_error_propagation (s : transform.Store σ) (t : TransformerFunc σ)
    (hL : s.ListTransformer = none) (hT : s.Transformer = some t)
    (ac : APIContext) (hP : ac.NeedPower = true) (sc : Schema) (o : Option QueryOptions)
    (w : σ) (data : Slice) (w1 : σ)
    (hinner : s.Store.List ac sc o w = ((data, none), w1)) :
    (∀ sched c, run t ac sc o sched (Config.init ac data.items w1) = some c →
      sched.length ≤ 7 * data.items.length + 2 ∧
        ∃ more out, (∀ err, Move.cancel err ∉ more) ∧
          s.List ac sc o (sched ++ more) w = some out) ∧
    (∀ sched out, s.List ac sc o sched w = some out →
      ∃ c r, run t ac sc o sched (Config.init ac data.items w1) = some c ∧
        out = Outcome.returns r c.world ∧
        c.units.length = data.items.length ∧ (∀ u ∈ c.units, u.isDone = true) ∧
        (c.calls.map Prod.fst).Perm data.items ∧
        ((∃ entry ∈ c.calls, entry.2.2 ≠ none) →
          ∃ e, r = (none, some e) ∧ (∃ entry ∈ c.calls, entry.2.2 = some e) ∧
            ∀ e0, (∀ entry ∈ c.calls, ∀ e1, entry.2.2 = some e1 → e1 = e0) → e = e0)) ∧
    (∀ sched c r, run t ac sc o sched (Config.init ac data.items w1) = some c →
      c.ret = some r →
      c.units.length = data.items.length ∧ ∀ u ∈ c.units, u.isDone = true) ∧
    (∀ item ∈ data.items,
      (∀ e w0, (t { ac with ctxErr := e } sc item o w0).1.2 ≠ none) →
      ∀ sched out, s.List ac sc o sched w = some out →
        ∃ e w2, out = Outcome.returns (none, some e) w2 ∧
          ∃ e1 item1 w3, item1 ∈ data.items ∧
            (t { ac with ctxErr := e1 } sc item1 o w3).1.2 = some e) := by
  refine ⟨fun sched c hrun =>
    List_power_completes s t hL hT ac hP sc o w data w1 hinner sched c hrun, ?_, ?_, ?_⟩
  · intro sched out hout
    obtain ⟨c, r, hrun, hret, rfl⟩ :=
      List_power_some s t hL hT ac hP sc o w data w1 hinner sched out hout
    obtain ⟨hlen, hdone, hinputs, -, hcase⟩ :=
      run_returned t ac sc o data.items w1 sched c r hrun hret
    refine ⟨c, r, hrun, rfl, hlen, hdone, hinputs, ?_⟩
    rintro ⟨bad, hbad, hne⟩
    rcases hcase with ⟨e, rfl, entry, hentry, he⟩ | ⟨res, -, -, hnone⟩
    · exact ⟨e, rfl, ⟨entry, hentry, he⟩, fun e0 h0 => h0 entry hentry e he⟩
    · exact absurd (hnone bad hbad) hne
  · intro sched c r hrun hret
    obtain ⟨h1, h2, -⟩ := run_returned t ac sc o data.items w1 sched c r hrun hret
    exact ⟨h1, h2⟩
  · intro item hitem hfail sched out hout
    obtain ⟨c, r, hrun, hret, rfl⟩ :=
      List_power_some s t hL hT ac hP sc o w data w1 hinner sched out hout
    obtain ⟨-, -, hinputs, horigin, hcase⟩ :=
      run_returned t ac sc o data.items w1 sched c r hrun hret
    have hmem : item ∈ c.calls.map Prod.fst := hinputs.symm.subset hitem
    simp only [List.mem_map] at hmem
    obtain ⟨bad, hbad, hfst⟩ := hmem
    have hne : bad.2.2 ≠ none := by
      obtain ⟨e, w0, he⟩ := horigin bad hbad
      rw [he, hfst]
      exact hfail e w0
    rcases hcase with ⟨e, rfl, entry, hentry, he⟩ | ⟨res, -, -, hnone⟩
    · obtain ⟨e1, w3, h3⟩ := horigin entry hentry
      refine ⟨e, c.world, rfl, e1, entry.1, w3, ?_, ?_⟩
      · exact hinputs.subset (List.mem_map_of_mem _ hentry)
      · rw [← h3]; exact he
    · exact absurd (hnone bad hbad) hne

theorem powerList_error_propagation_witness :
    Example.powerContext.NeedPower = true ∧
    ∃ e w2, (⟨Example.okStore, some Example.failB, none, none⟩ : transform.Store Nat).List
        Example.powerContext Example.schema none Example.secondFails 0 =
          some (Outcome.returns (none, some e) w2) := by
  refine ⟨rfl, ?_⟩
  obtain ⟨e, w2, h1, -⟩ := (powerList_error_propagation
    (⟨Example.okStore, some Example.failB, none, none⟩ : transform.Store Nat) Example.failB
    rfl rfl Example.powerContext rfl Example.schema none
    0 (some Example.abc) 0 rfl).2.2.2 (some (Example.item "b")) (by decide)
    (fun _ _ => by simp [Example.failB]) Example.secondFails _ rfl
  exact ⟨e, w2, congrArg some h1⟩

/-- C10, as stated, fails: with a request context that is cancelled before the call,
power-mode `List` still starts the three goroutines, calls the transformer three times
and returns the collection and no error; and so it does when the request is cancelled
after the first `eg.Go`, before two of the three goroutines are started. -/
theorem powerList_cancellation_counterexample :
    Example.cancelledContext.ctxErr = some (Error.other "context canceled") ∧
    (⟨Example.okStore, some Example.addX, none, none⟩ : transform.Store Nat).List
        Example.cancelledContext Example.schema none Example.thirdFirst 0 =
      some (Outcome.returns
        (some [some [("id", Value.str "c"), ("x", Value.num 1)],
               some [("id", Value.str "a"), ("x", Value.num 1)],
               some [("id", Value.str "b"), ("x", Value.num 1)]], none) 3) ∧
    (⟨Example.okStore, some Example.addX, none, none⟩ : transform.Store Nat).List
        Example.powerContext Example.schema none Example.cancelledEarly 0 =
      some (Outcome.returns
        (some [some [("id", Value.str "c"), ("x", Value.num 1)],
               some [("id", Value.str "a"), ("x", Value.num 1)],
               some [("id", Value.str "b"), ("x", Value.num 1)]], none) 3) :=
  ⟨rfl, rfl, rfl⟩

/-- C10, amended: power-mode `List` with a per-item transformer, whatever it is, does not
itself look at the request context.  Whether the context is cancelled before the call, at
any moment of the run, or not at all: every run can be carried on to the return of `List`;
when `List` returns, one goroutine per item was started and all are done, and every item
was given to exactly one transformer call; and `List` returns either a nil collection with
an error that one of these calls gave, or, when none of them gave an error, the items
these calls gave and that a list keeps, in some order, and no error.  So an error of the
context is returned only when a transformer call gives it. -/
theorem powerList_ignores_cancellation (s : transform.Store σ) (t : TransformerFunc σ)
    (hL : s.ListTransformer = none) (hT : s.Transformer = some t)
    (ac : APIContext) (hP : ac.NeedPower = true) (sc : Schema) (o : Option QueryOptions)
    (w : σ) (data : Slice) (w1 : σ)
    (hinner : s.Store.List ac sc o w = ((data, none), w1)) :
    (∀ sched c, run t ac sc o sched (Config.init ac data.items w1) = some c →
      ∃ more out, (∀ err, Move.cancel err ∉ more) ∧
        s.List ac sc o (sched ++ more) w = some out) ∧
    (∀ sched out, s.List ac sc o sched w = some out →
      ∃ c r, run t ac sc o sched (Config.init ac data.items w1) = some c ∧
        out = Outcome.returns r c.world ∧
        c.units.length = data.items.length ∧ (∀ u ∈ c.units, u.isDone = true) ∧
        (c.calls.map Prod.fst).Perm data.items ∧
        (∀ entry ∈ c.calls, ∃ e w0,
          entry.2 = (t { ac with ctxErr := e } sc entry.1 o w0).1) ∧
        ((∃ e, r = (none, some e) ∧ ∃ entry ∈ c.calls, entry.2.2 = some e) ∨
         (∃ res, r = (res, none) ∧
            res.items.Perm (c.calls.filterMap (fun entry => kept entry.2)) ∧
            ∀ entry ∈ c.calls, entry.2.2 = none))) := by
  refine ⟨fun sched c hrun =>
    (List_power_completes s t hL hT ac hP sc o w data w1 hinner sched c hrun).2, ?_⟩
  intro sched out hout
  obtain ⟨c, r, hrun, hret, rfl⟩ :=
    List_power_some s t hL hT ac hP sc o w data w1 hinner sched out hout
  obtain ⟨h1, h2, h3, h4, h5⟩ := run_returned t ac sc o data.items w1 sched c r hrun hret
  exact ⟨c, r, hrun, rfl, h1, h2, h3, h4, h5⟩

theorem powerList_ignores_cancellation_witness :
    Example.powerContext.NeedPower = true ∧
    (⟨Example.okStore, some Example.ctxAware, none, none⟩ : transform.Store Nat).List
        Example.powerContext Example.schema none Example.cancelledMidway 0 =
      some (Outcome.returns (none, some (Error.other "context canceled")) 3) ∧
    ∃ c, ∃ r : Slice × Option Error, run Example.ctxAware Example.powerContext Example.schema
        none Example.cancelledMidway (Config.init Example.powerContext Example.abc 0) = some c ∧
      c.ctxErr = some (Error.other "context canceled") ∧
      c.units.length = 3 ∧ (∀ u ∈ c.units, u.isDone = true) ∧
      (c.calls.map Prod.fst).Perm Example.abc ∧
      ((∃ e, r = (none, some e) ∧ ∃ entry ∈ c.calls, entry.2.2 = some e) ∨
       (∃ res, r = (res, none) ∧
          res.items.Perm (c.calls.filterMap (fun entry => kept entry.2)) ∧
          ∀ entry ∈ c.calls, entry.2.2 = none)) := by
  refine ⟨rfl, rfl, ?_⟩
  obtain ⟨c, r, h1, -, h3, h4, h5, -, h7⟩ := (powerList_ignores_cancellation
    (⟨Example.okStore, some Example.ctxAware, none, none⟩ : transform.Store Nat)
    Example.ctxAware rfl rfl Example.powerContext rfl Example.schema none
    0 (some Example.abc) 0 rfl).2 Example.cancelledMidway _ rfl
  refine ⟨c, r, h1, ?_, h3, h4, h5, h7⟩
  have h0 : run Example.ctxAware Example.powerContext Example.schema none
      Example.cancelledMidway (Config.init Example.powerContext (Slice.items (some Example.abc)) 0)
      = some _ := rfl
  rw [h0] at h1
  cases h1
  rfl

end Power

end transform
